import Mathlib

/-!
# Voice agent: dialogue orchestration engine of `src/app.js`

A shallow embedding of the orchestration logic of `src/app.js` (phrase
matching, transcript accumulation, the idle/dialogue mode machine, the tool
call round trip and disconnection), followed by theorems about it.

JavaScript strings are modelled as lists of Unicode characters (well-formed
strings; lone surrogates are outside the model).  What the browser provides
and the file does not define (the Unicode case tables behind
`String.prototype.toLowerCase`, `JSON.parse`, the clock, the network, the
arithmetic evaluator) is gathered in a `Host` record that every definition
takes as a parameter, so the theorems hold for every host.
-/

namespace VoiceAgent

/-- JavaScript string values: sequences of Unicode characters. -/
abbrev Str := List Char

/-! ## Host environment -/

/-- Values read out of a parsed JSON document, as far as the engine looks at them. -/
inductive JsVal where
  | undefined
  | null
  | str (s : Str)
  | raw (json : Str)
  deriving DecidableEq, Repr

/-- Result of `JSON.parse(text)` as far as `handleFunctionCall` observes it: a
thrown `SyntaxError` with its message, the value `null`, or any other value
together with what its properties `query` and `expression` evaluate to. -/
inductive Parsed where
  | syntaxError (message : Str)
  | null
  | value (query expression : JsVal)
  deriving DecidableEq, Repr

/-- Outcome of the `fetch` round trip inside `executeWebSearch`: the `results`
and `answer` members of the reply, each as JSON text, or the message of the
error that was thrown. -/
inductive FetchOutcome where
  | ok (results answer : Str)
  | failed (message : Str)
  deriving DecidableEq, Repr

/-- Browser facilities used by `src/app.js` that the file itself does not define. -/
structure Host where
  /-- Lowercase_Mapping of the Unicode Character Database for non-ASCII characters. -/
  lowerTable : Char → Str
  /-- Unicode property Cased. -/
  cased : Char → Bool
  /-- Unicode property Case_Ignorable. -/
  caseIgnorable : Char → Bool
  /-- No character lower-cases to the empty string. -/
  lowerTable_ne : ∀ c, lowerTable c ≠ []
  /-- The function `JSON.parse`. -/
  jsonParse : Str → Parsed
  /-- The empty text is not a JSON document. -/
  jsonParse_empty : ∃ m, jsonParse [] = Parsed.syntaxError m
  /-- The text `{}` is the empty object, which has no properties. -/
  jsonParse_braces : jsonParse ['{', '}'] = Parsed.value JsVal.undefined JsVal.undefined
  /-- Message of the `TypeError` raised by reading the named property of `null`. -/
  nullPropertyMessage : Str → Str
  /-- What `new Date()` yields in `executeGetDateTime`: ISO text, formatted text, timestamp. -/
  now : Str × Str × Str
  /-- Evaluation performed by `executeCalculator`: the number as JSON text, or an error message. -/
  evalExpression : JsVal → Except Str Str

/-! ## Strings -/

/-- Greek capital letter sigma, U+03A3. -/
def capitalSigma : Char := Char.ofNat 0x3A3

/-- Greek small letter final sigma, U+03C2. -/
def finalSigmaChar : Char := Char.ofNat 0x3C2

/-- Unconditional lower-case mapping of one character: ASCII letters by the
fixed rule, every other character by the host table. -/
def Host.lowerMapping (h : Host) (c : Char) : Str :=
  if c.toNat < 128 then [c.toLower] else h.lowerTable c

/-- Scan for a cased letter reached through case-ignorable characters only. -/
def Host.casedNearby (h : Host) : Str → Bool
  | [] => false
  | c :: cs => h.cased c || (h.caseIgnorable c && h.casedNearby cs)

/-- The Final_Sigma condition of SpecialCasing: preceded by a cased letter (with
case-ignorable characters in between) and not followed by one.  `before` is the
text before the character, nearest character first. -/
def Host.finalSigma (h : Host) (before after : Str) : Bool :=
  h.casedNearby before && !h.casedNearby after

/-- Lower-casing of the rest of a string, given the characters already passed
(nearest first). -/
def Host.lowerFrom (h : Host) : Str → Str → Str
  | _, [] => []
  | before, c :: rest =>
    (if c = capitalSigma ∧ h.finalSigma before rest = true then [finalSigmaChar]
      else h.lowerMapping c) ++ h.lowerFrom (c :: before) rest

/-- The method `String.prototype.toLowerCase`. -/
def toLowerCase (h : Host) (s : Str) : Str := h.lowerFrom [] s

/-- Does `text` begin with `pattern`? -/
def startsWith : Str → Str → Bool
  | _, [] => true
  | [], _ :: _ => false
  | c :: cs, p :: ps => c == p && startsWith cs ps

/-- The method `String.prototype.includes`. -/
def includes : Str → Str → Bool
  | [], pattern => pattern.isEmpty
  | c :: cs, pattern => startsWith (c :: cs) pattern || includes cs pattern

/-- White space and line terminators, the characters removed by `trim`. -/
def isJsWhiteSpace (c : Char) : Bool :=
  let n := c.toNat
  n = 0x9 || n = 0xA || n = 0xB || n = 0xC || n = 0xD || n = 0x20 || n = 0xA0 ||
  n = 0x1680 || (0x2000 ≤ n && n ≤ 0x200A) || n = 0x2028 || n = 0x2029 ||
  n = 0x202F || n = 0x205F || n = 0x3000 || n = 0xFEFF

/-- The method `String.prototype.trim`. -/
def trim (s : Str) : Str :=
  ((s.dropWhile isJsWhiteSpace).reverse.dropWhile isJsWhiteSpace).reverse

/-- The call `s.split(',')`. -/
def splitComma : Str → List Str
  | [] => [[]]
  | c :: cs =>
    if c = ',' then [] :: splitComma cs
    else match splitComma cs with
      | [] => [[c]]
      | piece :: pieces => (c :: piece) :: pieces

/-! ## Engine state -/

/-- The constant `AgentMode`. -/
inductive AgentMode where
  | idle
  | dialogue
  deriving DecidableEq, Repr

/-- The attribute `readyState` of the data channel; `ready` stands for the value `'open'`. -/
inductive ReadyState where
  | connecting
  | ready
  | closing
  | closed
  deriving DecidableEq, Repr

/-- Which callback a scheduled timer runs: the one of `resetDialogueTimeout`
or the one of `finalizeTranscript`. -/
inductive TimerKind where
  | dialogue
  | transcript
  deriving DecidableEq, Repr

/-- Events handed to `dataChannel.send` (their payload as far as it varies). -/
inductive Command where
  | sessionUpdate (tools : List Str)
  | responseCreate
  | functionCallOutput (callId : Str) (output : Str)
  deriving DecidableEq, Repr

/-- A call of `handleFunctionCall` suspended at `await executeWebSearch(...)`. -/
structure PendingCall where
  callId : Str
  query : JsVal
  deriving DecidableEq, Repr

/-- The object `state`, the module variables next to it, the timer table of the
browser, and what the engine has written: the events sent on the data channel
and the utterances logged by `processTranscript`. -/
structure State where
  mode : AgentMode
  isConnected : Bool
  isSpeaking : Bool
  agentName : Str
  nameVariants : List Str
  stopWords : List Str
  tavilyKey : Str
  toolWebSearch : Bool
  toolDateTime : Bool
  toolCalculator : Bool
  /-- The variable `dataChannel`: `none` is `null`. -/
  dataChannel : Option ReadyState
  /-- The variable `dialogueTimeout`: the identifier last returned by `setTimeout`. -/
  dialogueTimeout : Option Nat
  transcriptBuffer : Str
  /-- The variable `transcriptTimer`. -/
  transcriptTimer : Option Nat
  userIsSpeaking : Bool
  /-- Timers scheduled and neither fired nor cleared. -/
  timers : List (Nat × TimerKind)
  /-- Identifier the next `setTimeout` returns. -/
  nextTimerId : Nat
  /-- Calls of `handleFunctionCall` waiting for the network. -/
  inFlight : List PendingCall
  /-- Events sent on the data channel, oldest first. -/
  outbox : List Command
  /-- Utterances logged at `[PROCESS]`, oldest first. -/
  processed : List Str
  deriving DecidableEq, Repr

/-- The constant `DEFAULT_STOP_WORDS`. -/
def DEFAULT_STOP_WORDS : Str := "thanks, stop, enough, bye".toList

/-- The function `clearTimeout`. -/
def clearTimeout (handle : Option Nat) (s : State) : State :=
  match handle with
  | none => s
  | some id => { s with timers := s.timers.filter (fun t => t.1 != id) }

/-- The function `setTimeout`: schedules a callback of the given kind and
returns its identifier. -/
def setTimeout (kind : TimerKind) (s : State) : Nat × State :=
  (s.nextTimerId,
    { s with timers := s.timers ++ [(s.nextTimerId, kind)], nextTimerId := s.nextTimerId + 1 })

/-! ## Settings and phrase matching -/

/-- The function `updateStopWords`, given the value of the stop-words field. -/
def updateStopWords (h : Host) (field : Str) (s : State) : State :=
  let input := if field = [] then DEFAULT_STOP_WORDS else field
  let words := (splitComma input).map (fun word => toLowerCase h (trim word))
  { s with stopWords := words.filter (fun word => decide (0 < word.length)) }

/-- The array literal of `updateNameVariants`, for the lower-cased name. -/
def nameVariantsOf (name : Str) : List Str :=
  [ name,
    "hey ".toList ++ name,
    "hi ".toList ++ name,
    "hello ".toList ++ name,
    "listen ".toList ++ name,
    "tell me ".toList ++ name,
    name ++ " tell me".toList,
    name ++ " answer".toList,
    name ++ " what".toList ]

/-- The function `updateNameVariants`. -/
def updateNameVariants (h : Host) (s : State) : State :=
  { s with nameVariants := nameVariantsOf (toLowerCase h s.agentName) }

/-- The function `checkForName`. -/
def checkForName (h : Host) (s : State) (text : Str) : Bool :=
  let lowerText := toLowerCase h text
  s.nameVariants.any (fun variant => includes lowerText variant)

/-- The function `checkForStopPhrase`. -/
def checkForStopPhrase (h : Host) (s : State) (text : Str) : Bool :=
  let lowerText := toLowerCase h text
  s.stopWords.any (fun phrase => includes lowerText phrase)

/-! ## Modes, responses and transcripts -/

/-- The function `sendEvent`. -/
def sendEvent (event : Command) (s : State) : State :=
  if s.dataChannel = some ReadyState.ready then { s with outbox := s.outbox ++ [event] } else s

/-- The function `resetDialogueTimeout`. -/
def resetDialogueTimeout (s : State) : State :=
  let s1 := clearTimeout s.dialogueTimeout s
  let (id, s2) := setTimeout TimerKind.dialogue s1
  { s2 with dialogueTimeout := some id }

/-- The function `enterDialogueMode`. -/
def enterDialogueMode (s : State) : State :=
  resetDialogueTimeout { s with mode := AgentMode.dialogue }

/-- The function `exitDialogueMode`. -/
def exitDialogueMode (s : State) : State :=
  let s1 := { s with mode := AgentMode.idle }
  clearTimeout s1.dialogueTimeout s1

/-- The function `enterIdleMode`. -/
def enterIdleMode (s : State) : State :=
  let s1 := { s with mode := AgentMode.idle }
  clearTimeout s1.dialogueTimeout s1

/-- The function `respond`. -/
def respond (s : State) : State :=
  sendEvent Command.responseCreate { s with isSpeaking := true }

/-- The function `processTranscript`. -/
def processTranscript (h : Host) (text : Str) (s : State) : State :=
  if text = [] then s
  else
    let s1 := { s with processed := s.processed ++ [text] }
    match s1.mode with
    | AgentMode.dialogue =>
      if checkForStopPhrase h s1 text then exitDialogueMode s1
      else resetDialogueTimeout (respond s1)
    | AgentMode.idle =>
      if checkForName h s1 text then respond (enterDialogueMode s1) else s1

/-- The callback that `finalizeTranscript` hands to `setTimeout`. -/
def transcriptTimerFired (h : Host) (s : State) : State :=
  if trim s.transcriptBuffer ≠ [] then
    { processTranscript h (trim s.transcriptBuffer) s with transcriptBuffer := [] }
  else s

/-- The function `finalizeTranscript`. -/
def finalizeTranscript (s : State) : State :=
  let s1 := clearTimeout s.transcriptTimer s
  let (id, s2) := setTimeout TimerKind.transcript s1
  { s2 with transcriptTimer := some id }

/-- The function `handleTranscription`; a missing transcript is the empty string. -/
def handleTranscription (transcript : Str) (s : State) : State :=
  if transcript = [] ∨ trim transcript = [] then s
  else
    let s1 := { s with transcriptBuffer := s.transcriptBuffer ++ ' ' :: transcript }
    if !s1.userIsSpeaking then finalizeTranscript s1 else s1

/-- The function `handleResponseDone`. -/
def handleResponseDone (s : State) : State :=
  let s1 := { s with isSpeaking := false }
  match s1.mode with
  | AgentMode.dialogue => resetDialogueTimeout s1
  | AgentMode.idle => s1

/-- The function `disconnect`. -/
def disconnect (s : State) : State :=
  let s1 := clearTimeout s.dialogueTimeout s
  let s2 := clearTimeout s1.transcriptTimer s1
  { s2 with
    transcriptBuffer := []
    dataChannel := none
    isConnected := false
    isSpeaking := false
    mode := AgentMode.idle }

/-- A scheduled timer elapses: it leaves the timer table and its callback runs.
No timer with that identifier: nothing to run. -/
def fireTimer (h : Host) (id : Nat) (s : State) : Option State :=
  match s.timers.find? (fun t => t.1 == id) with
  | none => none
  | some (_, kind) =>
    let s1 := { s with timers := s.timers.filter (fun t => t.1 != id) }
    match kind with
    | TimerKind.dialogue => some (exitDialogueMode s1)
    | TimerKind.transcript => some (transcriptTimerFired h s1)

/-! ## Tool calls -/

/-- Object literals built by the tool code: members in order, each with its value. -/
abbrev JsObj := List (Str × JsVal)

/-- Lower-case hexadecimal digit. -/
def hexDigit (n : Nat) : Char :=
  if n < 10 then Char.ofNat (48 + n) else Char.ofNat (87 + n)

/-- Escape of one character inside a JSON string, as `JSON.stringify` writes it. -/
def escapeChar (c : Char) : Str :=
  if c = '"' then ['\\', '"']
  else if c = '\\' then ['\\', '\\']
  else if c.toNat = 8 then ['\\', 'b']
  else if c.toNat = 12 then ['\\', 'f']
  else if c = '\n' then ['\\', 'n']
  else if c = '\r' then ['\\', 'r']
  else if c = '\t' then ['\\', 't']
  else if c.toNat < 32 then
    ['\\', 'u', '0', '0', hexDigit (c.toNat / 16), hexDigit (c.toNat % 16)]
  else [c]

/-- A string as a JSON string literal. -/
def quoteJSONString (s : Str) : Str :=
  '"' :: (s.map escapeChar).flatten ++ ['"']

/-- JSON text of a member, or nothing for `undefined`, which `JSON.stringify` omits. -/
def encodeMember (m : Str × JsVal) : Option Str :=
  match m.2 with
  | JsVal.undefined => none
  | JsVal.null => some (quoteJSONString m.1 ++ ':' :: "null".toList)
  | JsVal.str v => some (quoteJSONString m.1 ++ ':' :: quoteJSONString v)
  | JsVal.raw json => some (quoteJSONString m.1 ++ ':' :: json)

/-- The call `JSON.stringify(result)` on a result object. -/
def jsonStringify (o : JsObj) : Str :=
  '{' :: ((o.filterMap encodeMember).intersperse [',']).flatten ++ ['}']

/-- The fields of `data` that `handleFunctionCall` reads; a missing `arguments`
is `none`. -/
structure FunctionCallData where
  name : Str
  arguments : Option Str
  callId : Str
  deriving DecidableEq, Repr

/-- The function `executeGetDateTime`. -/
def executeGetDateTime (h : Host) : JsObj :=
  [ ("datetime".toList, JsVal.str h.now.1),
    ("formatted".toList, JsVal.str h.now.2.1),
    ("timestamp".toList, JsVal.raw h.now.2.2) ]

/-- The function `executeCalculator`: both of its return shapes, the evaluation
itself being the host's. -/
def executeCalculator (h : Host) (expression : JsVal) : JsObj :=
  match h.evalExpression expression with
  | Except.ok number => [("expression".toList, expression), ("result".toList, JsVal.raw number)]
  | Except.error message =>
    [("expression".toList, expression), ("error".toList, JsVal.str message)]

/-- What `executeWebSearch` returns once `fetch` has settled. -/
def webSearchResult (query : JsVal) (outcome : FetchOutcome) : JsObj :=
  match outcome with
  | FetchOutcome.ok results answer =>
    [ ("query".toList, query), ("results".toList, JsVal.raw results),
      ("answer".toList, JsVal.raw answer) ]
  | FetchOutcome.failed message => [("error".toList, JsVal.str message)]

/-- Where the `try` block of `handleFunctionCall` stands when it first yields:
with the result in hand, or waiting for the `fetch` of `executeWebSearch`. -/
inductive Dispatch where
  | result (r : JsObj)
  | awaitFetch (query : JsVal)
  deriving DecidableEq, Repr

/-- The expression `argsString || '{}'`. -/
def argsOrDefault (arguments : Option Str) : Str :=
  match arguments with
  | none => ['{', '}']
  | some a => if a = [] then ['{', '}'] else a

/-- The `try`/`catch` statement of `handleFunctionCall`. -/
def dispatchTool (h : Host) (s : State) (data : FunctionCallData) : Dispatch :=
  match h.jsonParse (argsOrDefault data.arguments) with
  | Parsed.syntaxError message => Dispatch.result [("error".toList, JsVal.str message)]
  | Parsed.null =>
    if data.name = "web_search".toList then
      Dispatch.result [("error".toList, JsVal.str (h.nullPropertyMessage "query".toList))]
    else if data.name = "get_current_datetime".toList then
      Dispatch.result (executeGetDateTime h)
    else if data.name = "calculator".toList then
      Dispatch.result [("error".toList, JsVal.str (h.nullPropertyMessage "expression".toList))]
    else Dispatch.result [("error".toList, JsVal.str ("Unknown tool: ".toList ++ data.name))]
  | Parsed.value query expression =>
    if data.name = "web_search".toList then
      if s.tavilyKey = [] then
        Dispatch.result [("error".toList, JsVal.str "Tavily API key not configured".toList)]
      else Dispatch.awaitFetch query
    else if data.name = "get_current_datetime".toList then
      Dispatch.result (executeGetDateTime h)
    else if data.name = "calculator".toList then
      Dispatch.result (executeCalculator h expression)
    else Dispatch.result [("error".toList, JsVal.str ("Unknown tool: ".toList ++ data.name))]

/-- The statements of `handleFunctionCall` after the `try`/`catch`. -/
def sendToolResult (callId : Str) (result : JsObj) (s : State) : State :=
  let s1 := sendEvent (Command.functionCallOutput callId (jsonStringify result)) s
  let s2 := { s1 with isSpeaking := true }
  sendEvent Command.responseCreate s2

/-- The function `handleFunctionCall`, up to its first suspension: it runs to
its end unless it has to wait for the network. -/
def handleFunctionCall (h : Host) (data : FunctionCallData) (s : State) : State :=
  match dispatchTool h s data with
  | Dispatch.result r => sendToolResult data.callId r s
  | Dispatch.awaitFetch query => { s with inFlight := s.inFlight ++ [⟨data.callId, query⟩] }

/-- The rest of a suspended `handleFunctionCall`, run when its `fetch` settles. -/
def resumeFunctionCall (index : Nat) (outcome : FetchOutcome) (s : State) : State :=
  match s.inFlight.get? index with
  | none => s
  | some call =>
    sendToolResult call.callId (webSearchResult call.query outcome)
      { s with inFlight := s.inFlight.eraseIdx index }

/-! ## Events -/

/-- Messages of the data channel, by their `type`. -/
inductive ServerEvent where
  | sessionCreated
  | sessionUpdated
  | speechStarted
  | speechStopped
  | transcriptionCompleted (transcript : Str)
  | audioTranscriptDelta
  | audioTranscriptDone (transcript : Str)
  | responseDone
  | functionCallArgumentsDone (data : FunctionCallData)
  | error
  | other
  deriving DecidableEq, Repr

/-- The function `handleServerEvent`. -/
def handleServerEvent (h : Host) (e : ServerEvent) (s : State) : State :=
  match e with
  | ServerEvent.speechStarted => { s with userIsSpeaking := true }
  | ServerEvent.speechStopped => finalizeTranscript { s with userIsSpeaking := false }
  | ServerEvent.transcriptionCompleted transcript => handleTranscription transcript s
  | ServerEvent.responseDone => handleResponseDone s
  | ServerEvent.functionCallArgumentsDone data => handleFunctionCall h data s
  | _ => s

/-- The function `getActiveTools`, by tool name. -/
def getActiveTools (s : State) : List Str :=
  (if s.toolWebSearch ∧ s.tavilyKey ≠ [] then ["web_search".toList] else []) ++
  (if s.toolDateTime then ["get_current_datetime".toList] else []) ++
  (if s.toolCalculator then ["calculator".toList] else [])

/-- The handler `dataChannel.onopen`. -/
def onChannelOpen (s : State) : State :=
  enterIdleMode (sendEvent (Command.sessionUpdate (getActiveTools s)) s)

/-- The expression `value.trim() || fallback`. -/
def trimOr (value fallback : Str) : Str :=
  if trim value = [] then fallback else trim value

/-- What can happen to the page: input in the settings fields, the steps of
`connect` (called with a well-formed API key), changes of the data channel, its
messages, timers elapsing, a `fetch` settling, and the disconnect button. -/
inductive Event where
  | agentNameInput (value : Str)
  | stopWordsInput (value : Str)
  | tavilyKeyInput (value : Str)
  | toolsChanged (webSearch dateTime calculator : Bool)
  | connectClicked (agentNameField : Str)
  | channelCreated
  | connectSucceeded
  | connectFailed
  | channelOpened
  | channelClosing
  | channelClosed
  | message (e : ServerEvent)
  | timerFired (id : Nat)
  | fetchSettled (index : Nat) (outcome : FetchOutcome)
  | disconnectClicked
  deriving DecidableEq, Repr

/-- One turn of the event loop. -/
def step (h : Host) (e : Event) (s : State) : State :=
  match e with
  | Event.agentNameInput value =>
    updateNameVariants h { s with agentName := trimOr value "Ави".toList }
  | Event.stopWordsInput value => updateStopWords h value s
  | Event.tavilyKeyInput value => { s with tavilyKey := value }
  | Event.toolsChanged webSearch dateTime calculator =>
    { s with toolWebSearch := webSearch, toolDateTime := dateTime, toolCalculator := calculator }
  | Event.connectClicked agentNameField =>
    updateNameVariants h { s with agentName := trimOr agentNameField "Alex".toList }
  | Event.channelCreated => { s with dataChannel := some ReadyState.connecting }
  | Event.connectSucceeded => { s with isConnected := true }
  | Event.connectFailed => disconnect s
  | Event.channelOpened =>
    match s.dataChannel with
    | some _ => onChannelOpen { s with dataChannel := some ReadyState.ready }
    | none => s
  | Event.channelClosing =>
    match s.dataChannel with
    | some _ => { s with dataChannel := some ReadyState.closing }
    | none => s
  | Event.channelClosed =>
    match s.dataChannel with
    | some _ =>
      let s1 := { s with dataChannel := some ReadyState.closed }
      if s1.isConnected then disconnect s1 else s1
    | none => s
  | Event.message e => handleServerEvent h e s
  | Event.timerFired id => (fireTimer h id s).getD s
  | Event.fetchSettled index outcome => resumeFunctionCall index outcome s
  | Event.disconnectClicked => if s.isConnected then disconnect s else s

/-- The page after `loadSettings`, given the saved agent name and stop words
(empty when nothing is saved). -/
def initialState (h : Host) (savedName savedStopWords : Str) : State :=
  updateNameVariants h (updateStopWords h savedStopWords
    { mode := AgentMode.idle
      isConnected := false
      isSpeaking := false
      agentName := if savedName = [] then "Alex".toList else savedName
      nameVariants := []
      stopWords := []
      tavilyKey := []
      toolWebSearch := true
      toolDateTime := true
      toolCalculator := true
      dataChannel := none
      dialogueTimeout := none
      transcriptBuffer := []
      transcriptTimer := none
      userIsSpeaking := false
      timers := []
      nextTimerId := 1
      inFlight := []
      outbox := []
      processed := [] })

/-- The page after a sequence of events. -/
def run (h : Host) (events : List Event) (s : State) : State :=
  events.foldl (fun st e => step h e st) s

/-- States the page can be in. -/
def Reachable (h : Host) (s : State) : Prop :=
  ∃ savedName savedStopWords events, s = run h events (initialState h savedName savedStopWords)

/-! ## Invariant -/

/-- Identifiers of the scheduled timers of the given kind, oldest first. -/
def pendingOf (kind : TimerKind) (s : State) : List Nat :=
  (s.timers.filter (fun t => t.2 == kind)).map Prod.fst

/-- What every reachable state satisfies: timer identifiers are distinct and
older than the next one, every scheduled timer is the one its variable refers
to, the two variables never hold the same identifier, the agent name is not
empty and no stop word is empty. -/
def State.WF (s : State) : Prop :=
  (s.timers.map Prod.fst).Nodup ∧
  (∀ t ∈ s.timers, t.1 < s.nextTimerId) ∧
  (∀ t ∈ s.timers, t.2 = TimerKind.dialogue → s.dialogueTimeout = some t.1) ∧
  (∀ t ∈ s.timers, t.2 = TimerKind.transcript → s.transcriptTimer = some t.1) ∧
  (∀ i ∈ s.dialogueTimeout, i < s.nextTimerId) ∧
  (∀ i ∈ s.transcriptTimer, i < s.nextTimerId) ∧
  (s.dialogueTimeout = none ∨ s.dialogueTimeout ≠ s.transcriptTimer) ∧
  s.agentName ≠ [] ∧
  [] ∉ s.stopWords

instance (s : State) : Decidable s.WF := by
  unfold State.WF; infer_instance

/-! ## A concrete host

A host to run the definitions on: case tables for Basic Latin, Greek and
Cyrillic, a reader for JSON texts, a fixed clock and an evaluator that knows
decimal literals only.  It stands in for the browser in the worked examples. -/

/-- Lower-case mapping of the Greek and Cyrillic capital letters. -/
def sampleLowerTable (c : Char) : Str :=
  let n := c.toNat
  if (0x391 ≤ n ∧ n ≤ 0x3A1) ∨ (0x3A3 ≤ n ∧ n ≤ 0x3AB) ∨ (0x410 ≤ n ∧ n ≤ 0x42F) then
    [Char.ofNat (n + 32)]
  else if 0x400 ≤ n ∧ n ≤ 0x40F then [Char.ofNat (n + 80)]
  else [c]

/-- Cased letters of Basic Latin, Greek and Cyrillic. -/
def sampleCased (c : Char) : Bool :=
  let n := c.toNat
  (0x41 ≤ n && n ≤ 0x5A) || (0x61 ≤ n && n ≤ 0x7A) ||
  (0x391 ≤ n && n ≤ 0x3A1) || (0x3A3 ≤ n && n ≤ 0x3AB) || (0x3AC ≤ n && n ≤ 0x3CE) ||
  (0x400 ≤ n && n ≤ 0x45F)

/-- Case-ignorable characters below U+0370. -/
def sampleCaseIgnorable (c : Char) : Bool :=
  let n := c.toNat
  n = 0x27 || n = 0x2E || n = 0x3A || n = 0x5E || n = 0x60 || n = 0xA8 || n = 0xAD ||
  n = 0xAF || n = 0xB4 || n = 0xB7 || n = 0xB8 || (0x2B0 ≤ n && n ≤ 0x36F)

/-- White space of the JSON grammar. -/
def isJsonSpace (c : Char) : Bool :=
  c = ' ' || c = '\t' || c = '\n' || c = '\r'

/-- Drop leading JSON white space. -/
def skipSpace (s : Str) : Str := s.dropWhile isJsonSpace

/-- Value of a hexadecimal digit. -/
def hexValue (c : Char) : Option Nat :=
  let n := c.toNat
  if 48 ≤ n ∧ n ≤ 57 then some (n - 48)
  else if 97 ≤ n ∧ n ≤ 102 then some (n - 87)
  else if 65 ≤ n ∧ n ≤ 70 then some (n - 55)
  else none

/-- Character named by a one-letter escape. -/
def unescape (c : Char) : Option Char :=
  if c = '"' ∨ c = '\\' ∨ c = '/' then some c
  else if c = 'b' then some (Char.ofNat 8)
  else if c = 'f' then some (Char.ofNat 12)
  else if c = 'n' then some '\n'
  else if c = 'r' then some '\r'
  else if c = 't' then some '\t'
  else none

/-- Read a JSON string after its opening quote: the decoded text and what follows. -/
def readString : Nat → Str → Option (Str × Str)
  | 0, _ => none
  | _ + 1, [] => none
  | fuel + 1, c :: rest =>
    if c = '"' then some ([], rest)
    else if c = '\\' then
      match rest with
      | 'u' :: x1 :: x2 :: x3 :: x4 :: rest2 =>
        match hexValue x1, hexValue x2, hexValue x3, hexValue x4 with
        | some a, some b, some c, some d =>
          (readString fuel rest2).map
            (fun r => (Char.ofNat (((a * 16 + b) * 16 + c) * 16 + d) :: r.1, r.2))
        | _, _, _, _ => none
      | e :: rest2 =>
        match unescape e with
        | some ch => (readString fuel rest2).map (fun r => (ch :: r.1, r.2))
        | none => none
      | [] => none
    else if c.toNat < 32 then none
    else (readString fuel rest).map (fun r => (c :: r.1, r.2))

/-- Read a JSON number: what follows it. -/
def readNumber (s : Str) : Option Str :=
  let s1 := match s with
    | '-' :: r => r
    | _ => s
  let int := s1.takeWhile Char.isDigit
  let s2 := s1.dropWhile Char.isDigit
  if int = [] ∨ (int.head? = some '0' ∧ int.length ≠ 1) then none
  else
    let afterFraction : Option Str := match s2 with
      | '.' :: r => if r.takeWhile Char.isDigit = [] then none else some (r.dropWhile Char.isDigit)
      | _ => some s2
    afterFraction.bind fun s3 =>
      match s3 with
      | e :: r =>
        if e = 'e' ∨ e = 'E' then
          let r1 := match r with
            | '+' :: t => t
            | '-' :: t => t
            | _ => r
          if r1.takeWhile Char.isDigit = [] then none else some (r1.dropWhile Char.isDigit)
        else some s3
      | [] => some s3

/-- A member value as the engine sees it, from its JSON text. -/
def asJsVal (text : Str) : JsVal :=
  match text with
  | '"' :: r =>
    match readString (r.length + 1) r with
    | some (v, _) => JsVal.str v
    | none => JsVal.raw text
  | _ => if text = "null".toList then JsVal.null else JsVal.raw text

mutual
/-- Read one JSON value (no leading space): what follows it. -/
def skipValue : Nat → Str → Option Str
  | 0, _ => none
  | fuel + 1, s =>
    match s with
    | '{' :: r =>
      match skipSpace r with
      | '}' :: r2 => some r2
      | r1 => (readMembers fuel r1).map (fun m => m.2)
    | '[' :: r =>
      match skipSpace r with
      | ']' :: r2 => some r2
      | r1 => skipElements fuel r1
    | '"' :: r => (readString (r.length + 1) r).map (fun m => m.2)
    | 't' :: 'r' :: 'u' :: 'e' :: r => some r
    | 'f' :: 'a' :: 'l' :: 's' :: 'e' :: r => some r
    | 'n' :: 'u' :: 'l' :: 'l' :: r => some r
    | _ => readNumber s
/-- Read the elements of an array up to its closing bracket. -/
def skipElements : Nat → Str → Option Str
  | 0, _ => none
  | fuel + 1, s =>
    match skipValue fuel (skipSpace s) with
    | none => none
    | some r =>
      match skipSpace r with
      | ',' :: r2 => skipElements fuel r2
      | ']' :: r2 => some r2
      | _ => none
/-- Read the members of an object up to its closing brace. -/
def readMembers : Nat → Str → Option (List (Str × JsVal) × Str)
  | 0, _ => none
  | fuel + 1, s =>
    match skipSpace s with
    | '"' :: r =>
      match readString (r.length + 1) r with
      | none => none
      | some (key, r1) =>
        match skipSpace r1 with
        | ':' :: r2 =>
          let v := skipSpace r2
          match skipValue fuel v with
          | none => none
          | some r3 =>
            let member := (key, asJsVal (v.take (v.length - r3.length)))
            match skipSpace r3 with
            | ',' :: r4 => (readMembers fuel r4).map (fun m => (member :: m.1, m.2))
            | '}' :: r4 => some ([member], r4)
            | _ => none
        | _ => none
    | _ => none
end

/-- Property of a parsed object: the last member of that name, else `undefined`. -/
def property (members : List (Str × JsVal)) (name : Str) : JsVal :=
  (members.reverse.lookup name).getD JsVal.undefined

/-- A reader for JSON texts, reporting what `handleFunctionCall` looks at. -/
def sampleJsonParse (text : Str) : Parsed :=
  let failure := Parsed.syntaxError "Unexpected token".toList
  let s := skipSpace text
  match s with
  | '{' :: r =>
    match skipSpace r with
    | '}' :: r2 =>
      if skipSpace r2 = [] then Parsed.value JsVal.undefined JsVal.undefined else failure
    | r1 =>
      match readMembers (r1.length + 1) r1 with
      | some (members, r2) =>
        if skipSpace r2 = [] then
          Parsed.value (property members "query".toList) (property members "expression".toList)
        else failure
      | none => failure
  | _ =>
    match skipValue (s.length + 1) s with
    | some r =>
      if skipSpace r ≠ [] then failure
      else if s.take 4 = "null".toList then Parsed.null
      else Parsed.value JsVal.undefined JsVal.undefined
    | none => failure

/-- An evaluator that knows unsigned decimal literals only. -/
def sampleEval (expression : JsVal) : Except Str Str :=
  match expression with
  | JsVal.str e =>
    if e ≠ [] ∧ e.all Char.isDigit then Except.ok e
    else Except.error "Invalid characters in expression".toList
  | _ => Except.error "Cannot read properties of undefined (reading 'replace')".toList

/-- The concrete host. -/
def sampleHost : Host where
  lowerTable := sampleLowerTable
  cased := sampleCased
  caseIgnorable := sampleCaseIgnorable
  lowerTable_ne := by
    intro c; unfold sampleLowerTable; simp only []; split_ifs <;> simp
  jsonParse := sampleJsonParse
  jsonParse_empty := ⟨"Unexpected token".toList, by decide⟩
  jsonParse_braces := by decide
  nullPropertyMessage := fun name => "Cannot read properties of null (reading '".toList ++ name ++ "')".toList
  now := ("2024-01-01T00:00:00.000Z".toList, "Monday, January 1, 2024 at 12:00 AM UTC".toList,
    "1704067200000".toList)
  evalExpression := sampleEval

/-! ## Auxiliary definitions for the statements -/

/-- Character-by-character lower-casing, without the Final_Sigma rule. -/
def Host.lowerEach (h : Host) (s : Str) : Str := (s.map h.lowerMapping).flatten

/-- Fragments delivered one after the other through `handleTranscription`. -/
def deliver (fragments : List Str) (s : State) : State :=
  fragments.foldl (fun st f => handleTranscription f st) s

/-! ## Worked sessions on the concrete host -/

/-- The user connects as "Alex" and the data channel opens. -/
def sessionEvents : List Event :=
  [Event.connectClicked "Alex".toList, Event.channelCreated, Event.connectSucceeded,
    Event.channelOpened]

/-- The page listening passively on an open channel, default stop words. -/
def listening : State := run sampleHost sessionEvents (initialState sampleHost [] [])

/-- An utterance that addresses the agent. -/
def wakeUtterance : Str := "Alex, what time is it".toList

/-- The page in dialogue: the wake utterance was transcribed and finalized. -/
def inDialogue : State :=
  run sampleHost [Event.message (ServerEvent.transcriptionCompleted wakeUtterance),
    Event.timerFired 1] listening

/-- The wake utterance is buffered, then the channel starts closing before the
debounce timer elapses. -/
def closingIdle : State :=
  run sampleHost [Event.message (ServerEvent.transcriptionCompleted wakeUtterance),
    Event.channelClosing] listening

/-- The page in dialogue when the channel starts closing. -/
def closingDialogue : State := run sampleHost [Event.channelClosing] inDialogue

/-- An agent name in Greek capitals: alpha, sigma. -/
def greekName : Str := [Char.ofNat 0x391, Char.ofNat 0x3A3]

/-- A text that contains that name: alpha, sigma, alpha. -/
def greekText : Str := [Char.ofNat 0x391, Char.ofNat 0x3A3, Char.ofNat 0x391]

/-- The page after that name was typed into the agent name field. -/
def greekSession : State :=
  run sampleHost [Event.agentNameInput greekName] (initialState sampleHost [] [])

/-- A calculator call whose arguments are not JSON. -/
def badArgsCall : FunctionCallData :=
  { name := "calculator".toList, arguments := some "\x7boops".toList, callId := "call_7".toList }

/-- A date and time call whose arguments string is empty. -/
def emptyArgsCall : FunctionCallData :=
  { name := "get_current_datetime".toList, arguments := some [], callId := "call_1".toList }

/-! ## Definitions for the later statements -/

/-- Facts of the Unicode case tables: the final sigma is its own lower case;
lower-casing a character that is not white space yields no white space; and the
characters that lower-casing yields are fixed by lower-casing and are not the
capital sigma. -/
def Host.CaseStable (h : Host) : Prop :=
  h.lowerTable finalSigmaChar = [finalSigmaChar] ∧
  ∀ c : Char, 128 ≤ c.toNat → ∀ d ∈ h.lowerTable c,
    (isJsWhiteSpace c = false → isJsWhiteSpace d = false) ∧
    h.lowerMapping d = [d] ∧ d ≠ capitalSigma

/-- Stop phrases as the specification words them: the input is split at commas,
each piece is trimmed and lower-cased, and the non-empty results are kept in
input order. -/
def stopPhrasesOf (h : Host) (input : Str) : List Str :=
  ((splitComma input).map (fun piece => toLowerCase h (trim piece))).filter
    (fun w => decide (w ≠ []))

/-- Dialogue timers are scheduled only while the mode is Dialogue. -/
def State.DialogueOnly (s : State) : Prop :=
  ∀ t ∈ s.timers, t.2 = TimerKind.dialogue → s.mode = AgentMode.dialogue

/-! ## More worked sessions on the concrete host -/

/-- A text that addresses the agent and goes on in Greek capitals: sigma, alpha. -/
def sigmaText : Str := "so, hey Alex ".toList ++ [capitalSigma, Char.ofNat 0x391]

/-- A fragment "hello" has armed the debounce timer, then the user starts
speaking again. -/
def speakingAgain : State :=
  run sampleHost [Event.message (ServerEvent.transcriptionCompleted "hello".toList),
    Event.message ServerEvent.speechStarted] listening

/-- A web search call with a well-formed query. -/
def searchCall : FunctionCallData :=
  { name := "web_search".toList, arguments := some "\x7b\"query\":\"weather\"\x7d".toList,
    callId := "call_3".toList }

/-- A session with a search key in which the web search call is waiting for its
`fetch`. -/
def searching : State :=
  run sampleHost
    ([Event.tavilyKeyInput "tvly-key".toList] ++ sessionEvents ++
      [Event.message (ServerEvent.functionCallArgumentsDone searchCall)])
    (initialState sampleHost [] [])

/-- The user disconnects while the web search call is in flight and connects
again before it completes. -/
def reconnected : State :=
  run sampleHost ([Event.disconnectClicked] ++ sessionEvents) searching

/-- The dialogue was ended by the utterance "thanks bye". -/
def afterStop : State :=
  run sampleHost [Event.message (ServerEvent.transcriptionCompleted "thanks bye".toList),
    Event.timerFired 3] inDialogue

/-! ## The invariant holds in every reachable state -/

theorem WF_frame {s s' : State} (hs : s.WF) (h1 : s'.timers = s.timers)
    (h2 : s'.nextTimerId = s.nextTimerId) (h3 : s'.dialogueTimeout = s.dialogueTimeout)
    (h4 : s'.transcriptTimer = s.transcriptTimer) (h5 : s'.agentName = s.agentName)
    (h6 : s'.stopWords = s.stopWords) : s'.WF := by
  unfold State.WF at *
  rw [h1, h2, h3, h4, h5, h6]; exact hs

theorem WF_clearTimeout {s : State} (handle : Option Nat) (hs : s.WF) :
    (clearTimeout handle s).WF := by
  cases handle with
  | none => exact hs
  | some id =>
    obtain ⟨a, b, c, d, e⟩ := hs
    refine ⟨?_, ?_, ?_, ?_, e⟩
    · exact (List.filter_sublist _).map Prod.fst |>.nodup a
    · intro t ht; exact b t (List.mem_of_mem_filter ht)
    · intro t ht; exact c t (List.mem_of_mem_filter ht)
    · intro t ht; exact d t (List.mem_of_mem_filter ht)

/-- Once the dialogue variable is cleared, only transcript timers remain. -/
theorem clearTimeout_dialogue_rest {s : State} (hs : s.WF) :
    ∀ t ∈ (clearTimeout s.dialogueTimeout s).timers, t.2 = TimerKind.transcript := by
  intro t ht
  cases hk : t.2 with
  | transcript => rfl
  | dialogue =>
    exfalso
    have h1 := hs.2.2.1 t
    cases hd : s.dialogueTimeout with
    | none =>
      rw [hd] at ht
      have := h1 ht hk
      rw [hd] at this; cases this
    | some i =>
      rw [hd] at ht
      simp only [clearTimeout, List.mem_filter] at ht
      have := h1 ht.1 hk
      rw [hd] at this
      simp only [Option.some.injEq] at this
      simp [this] at ht

/-- Once the transcript variable is cleared, only dialogue timers remain. -/
theorem clearTimeout_transcript_rest {s : State} (hs : s.WF) :
    ∀ t ∈ (clearTimeout s.transcriptTimer s).timers, t.2 = TimerKind.dialogue := by
  intro t ht
  cases hk : t.2 with
  | dialogue => rfl
  | transcript =>
    exfalso
    have h1 := hs.2.2.2.1 t
    cases hd : s.transcriptTimer with
    | none =>
      rw [hd] at ht
      have := h1 ht hk
      rw [hd] at this; cases this
    | some i =>
      rw [hd] at ht
      simp only [clearTimeout, List.mem_filter] at ht
      have := h1 ht.1 hk
      rw [hd] at this
      simp only [Option.some.injEq] at this
      simp [this] at ht

theorem WF_resetDialogueTimeout {s : State} (hs : s.WF) : (resetDialogueTimeout s).WF := by
  have ht := clearTimeout_dialogue_rest hs
  obtain ⟨a, b, _, d, _, f, _, k⟩ := WF_clearTimeout s.dialogueTimeout hs
  simp only [resetDialogueTimeout, setTimeout]
  refine ⟨?_, ?_, ?_, ?_, ?_, ?_, ?_, k⟩
  · simp only [List.map_append, List.map_cons, List.map_nil]
    rw [List.nodup_append]
    refine ⟨a, List.nodup_singleton _, ?_⟩
    intro x hx hx'
    simp only [List.mem_singleton] at hx'
    obtain ⟨t, ht1, ht2⟩ := List.mem_map.1 hx
    have := b t ht1
    omega
  · intro t ht'
    simp only [List.mem_append, List.mem_singleton] at ht'
    rcases ht' with h | h
    · have := b t h; simp only []; omega
    · subst h; simp
  · intro t ht' hk
    simp only [List.mem_append, List.mem_singleton] at ht'
    rcases ht' with h | h
    · have := ht t h; rw [hk] at this; cases this
    · subst h; rfl
  · intro t ht' hk
    simp only [List.mem_append, List.mem_singleton] at ht'
    rcases ht' with h | h
    · exact d t h hk
    · subst h; cases hk
  · intro i hi
    simp only [Option.mem_def, Option.some.injEq] at hi
    subst hi; simp
  · intro i hi
    have := f i hi
    simp only []; omega
  · right
    simp only []
    intro h
    have := f _ (Option.mem_def.2 h.symm)
    omega

theorem WF_finalizeTranscript {s : State} (hs : s.WF) : (finalizeTranscript s).WF := by
  have ht := clearTimeout_transcript_rest hs
  obtain ⟨a, b, c, _, e, _, _, k⟩ := WF_clearTimeout s.transcriptTimer hs
  simp only [finalizeTranscript, setTimeout]
  refine ⟨?_, ?_, ?_, ?_, ?_, ?_, ?_, k⟩
  · simp only [List.map_append, List.map_cons, List.map_nil]
    rw [List.nodup_append]
    refine ⟨a, List.nodup_singleton _, ?_⟩
    intro x hx hx'
    simp only [List.mem_singleton] at hx'
    obtain ⟨t, ht1, ht2⟩ := List.mem_map.1 hx
    have := b t ht1
    omega
  · intro t ht'
    simp only [List.mem_append, List.mem_singleton] at ht'
    rcases ht' with h | h
    · have := b t h; simp only []; omega
    · subst h; simp
  · intro t ht' hk
    simp only [List.mem_append, List.mem_singleton] at ht'
    rcases ht' with h | h
    · exact c t h hk
    · subst h; cases hk
  · intro t ht' hk
    simp only [List.mem_append, List.mem_singleton] at ht'
    rcases ht' with h | h
    · have := ht t h; rw [hk] at this; cases this
    · subst h; rfl
  · intro i hi
    have := e i hi
    simp only []; omega
  · intro i hi
    simp only [Option.mem_def, Option.some.injEq] at hi
    subst hi; simp
  · by_cases hn : (clearTimeout s.transcriptTimer s).dialogueTimeout = none
    · left; exact hn
    · right
      simp only []
      intro h
      have := e _ (Option.mem_def.2 h)
      omega

theorem WF_sendEvent {s : State} (c : Command) (hs : s.WF) : (sendEvent c s).WF := by
  unfold sendEvent; split
  · exact WF_frame hs rfl rfl rfl rfl rfl rfl
  · exact hs

theorem WF_respond {s : State} (hs : s.WF) : (respond s).WF :=
  WF_sendEvent _ (WF_frame hs rfl rfl rfl rfl rfl rfl)

theorem WF_exitDialogueMode {s : State} (hs : s.WF) : (exitDialogueMode s).WF :=
  WF_clearTimeout _ (WF_frame hs rfl rfl rfl rfl rfl rfl)

theorem WF_enterIdleMode {s : State} (hs : s.WF) : (enterIdleMode s).WF :=
  WF_clearTimeout _ (WF_frame hs rfl rfl rfl rfl rfl rfl)

theorem WF_enterDialogueMode {s : State} (hs : s.WF) : (enterDialogueMode s).WF :=
  WF_resetDialogueTimeout (WF_frame hs rfl rfl rfl rfl rfl rfl)

theorem WF_processTranscript (h : Host) (text : Str) {s : State} (hs : s.WF) :
    (processTranscript h text s).WF := by
  unfold processTranscript
  split
  · exact hs
  · have h1 : ({ s with processed := s.processed ++ [text] } : State).WF :=
      WF_frame hs rfl rfl rfl rfl rfl rfl
    simp only []
    split
    · split
      · exact WF_exitDialogueMode h1
      · exact WF_resetDialogueTimeout (WF_respond h1)
    · split
      · exact WF_respond (WF_enterDialogueMode h1)
      · exact h1

theorem WF_transcriptTimerFired (h : Host) {s : State} (hs : s.WF) :
    (transcriptTimerFired h s).WF := by
  unfold transcriptTimerFired
  split
  · exact WF_frame (WF_processTranscript h _ hs) rfl rfl rfl rfl rfl rfl
  · exact hs

theorem WF_handleTranscription (t : Str) {s : State} (hs : s.WF) :
    (handleTranscription t s).WF := by
  unfold handleTranscription
  split
  · exact hs
  · simp only []
    split
    · exact WF_finalizeTranscript (WF_frame hs rfl rfl rfl rfl rfl rfl)
    · exact WF_frame hs rfl rfl rfl rfl rfl rfl

theorem WF_handleResponseDone {s : State} (hs : s.WF) : (handleResponseDone s).WF := by
  unfold handleResponseDone
  simp only []
  split
  · exact WF_resetDialogueTimeout (WF_frame hs rfl rfl rfl rfl rfl rfl)
  · exact WF_frame hs rfl rfl rfl rfl rfl rfl

theorem WF_disconnect {s : State} (hs : s.WF) : (disconnect s).WF :=
  WF_frame (WF_clearTimeout _ (WF_clearTimeout s.dialogueTimeout hs)) rfl rfl rfl rfl rfl rfl

theorem WF_sendToolResult (callId : Str) (r : JsObj) {s : State} (hs : s.WF) :
    (sendToolResult callId r s).WF :=
  WF_sendEvent _ (WF_frame (WF_sendEvent _ hs) rfl rfl rfl rfl rfl rfl)

theorem WF_handleFunctionCall (h : Host) (data : FunctionCallData) {s : State} (hs : s.WF) :
    (handleFunctionCall h data s).WF := by
  unfold handleFunctionCall
  split
  · exact WF_sendToolResult _ _ hs
  · exact WF_frame hs rfl rfl rfl rfl rfl rfl

theorem WF_resumeFunctionCall (index : Nat) (outcome : FetchOutcome) {s : State} (hs : s.WF) :
    (resumeFunctionCall index outcome s).WF := by
  unfold resumeFunctionCall
  split
  · exact hs
  · exact WF_sendToolResult _ _ (WF_frame hs rfl rfl rfl rfl rfl rfl)

theorem WF_fireTimer (h : Host) (id : Nat) {s s' : State} (hs : s.WF)
    (hf : fireTimer h id s = some s') : s'.WF := by
  have h1 : ({ s with timers := s.timers.filter (fun t => t.1 != id) } : State).WF :=
    WF_clearTimeout (some id) hs
  unfold fireTimer at hf
  split at hf
  · cases hf
  · simp only [] at hf
    split at hf
    · cases hf; exact WF_exitDialogueMode h1
    · cases hf; exact WF_transcriptTimerFired h h1

theorem WF_handleServerEvent (h : Host) (e : ServerEvent) {s : State} (hs : s.WF) :
    (handleServerEvent h e s).WF := by
  cases e <;> simp only [handleServerEvent]
  all_goals first
    | exact hs
    | exact WF_frame hs rfl rfl rfl rfl rfl rfl
    | exact WF_finalizeTranscript (WF_frame hs rfl rfl rfl rfl rfl rfl)
    | exact WF_handleTranscription _ hs
    | exact WF_handleResponseDone hs
    | exact WF_handleFunctionCall h _ hs

theorem trimOr_ne (value fallback : Str) (hf : fallback ≠ []) : trimOr value fallback ≠ [] := by
  unfold trimOr; split
  · exact hf
  · assumption

theorem WF_updateStopWords (h : Host) (field : Str) {s : State} (hs : s.WF) :
    (updateStopWords h field s).WF := by
  obtain ⟨a, b, c, d, e, f, g, k, _⟩ := hs
  refine ⟨a, b, c, d, e, f, g, k, ?_⟩
  simp only [updateStopWords]
  intro hmem
  have := (List.mem_filter.1 hmem).2
  simp at this

theorem WF_step (h : Host) (e : Event) {s : State} (hs : s.WF) : (step h e s).WF := by
  cases e <;> simp only [step]
  case agentNameInput value =>
    obtain ⟨a, b, c, d, e, f, g, _, k⟩ := hs
    exact ⟨a, b, c, d, e, f, g, trimOr_ne _ _ (by decide), k⟩
  case connectClicked value =>
    obtain ⟨a, b, c, d, e, f, g, _, k⟩ := hs
    exact ⟨a, b, c, d, e, f, g, trimOr_ne _ _ (by decide), k⟩
  case stopWordsInput value => exact WF_updateStopWords h value hs
  case tavilyKeyInput => exact WF_frame hs rfl rfl rfl rfl rfl rfl
  case toolsChanged => exact WF_frame hs rfl rfl rfl rfl rfl rfl
  case channelCreated => exact WF_frame hs rfl rfl rfl rfl rfl rfl
  case connectSucceeded => exact WF_frame hs rfl rfl rfl rfl rfl rfl
  case connectFailed => exact WF_disconnect hs
  case channelOpened =>
    split
    · exact WF_enterIdleMode (WF_sendEvent _ (WF_frame hs rfl rfl rfl rfl rfl rfl))
    · exact hs
  case channelClosing =>
    split
    · exact WF_frame hs rfl rfl rfl rfl rfl rfl
    · exact hs
  case channelClosed =>
    split
    · split
      · exact WF_disconnect (WF_frame hs rfl rfl rfl rfl rfl rfl)
      · exact WF_frame hs rfl rfl rfl rfl rfl rfl
    · exact hs
  case message e => exact WF_handleServerEvent h e hs
  case timerFired id =>
    cases hf : fireTimer h id s with
    | none => exact hs
    | some s' => exact WF_fireTimer h id hs hf
  case fetchSettled i o => exact WF_resumeFunctionCall i o hs
  case disconnectClicked =>
    split
    · exact WF_disconnect hs
    · exact hs

theorem WF_updateNameVariants (h : Host) {s : State} (hs : s.WF) :
    (updateNameVariants h s).WF :=
  WF_frame hs rfl rfl rfl rfl rfl rfl

theorem WF_initialState (h : Host) (savedName savedStopWords : Str) :
    (initialState h savedName savedStopWords).WF := by
  unfold initialState
  refine WF_updateNameVariants h (WF_updateStopWords h savedStopWords ?_)
  refine ⟨by simp, by simp, by simp, by simp, by simp, by simp, by simp, ?_, by simp⟩
  simp only []
  split
  · decide
  · assumption

theorem WF_run (h : Host) (events : List Event) {s : State} (hs : s.WF) :
    (run h events s).WF := by
  induction events generalizing s with
  | nil => exact hs
  | cons e es ih => exact ih (WF_step h e hs)

/-- Every reachable state satisfies the invariant. -/
theorem Reachable.wf {h : Host} {s : State} (hr : Reachable h s) : s.WF := by
  obtain ⟨n, w, events, rfl⟩ := hr
  exact WF_run h events (WF_initialState h n w)

/-- The state after `loadSettings` is reachable. -/
theorem Reachable.initial (h : Host) (savedName savedStopWords : Str) :
    Reachable h (initialState h savedName savedStopWords) :=
  ⟨savedName, savedStopWords, [], rfl⟩

/-- Events lead from reachable states to reachable states. -/
theorem Reachable.run {h : Host} {s : State} (hr : Reachable h s) (events : List Event) :
    Reachable h (run h events s) := by
  obtain ⟨n, w, before, rfl⟩ := hr
  exact ⟨n, w, before ++ events, by simp [VoiceAgent.run, List.foldl_append]⟩

/-! ## Strings and phrase matching -/

theorem startsWith_iff (s p : Str) : startsWith s p = true ↔ p <+: s := by
  induction p generalizing s with
  | nil => cases s <;> simp [startsWith]
  | cons a p ih =>
    cases s with
    | nil => simp [startsWith]
    | cons c cs =>
      simp only [startsWith, Bool.and_eq_true, beq_iff_eq, ih, List.cons_prefix_cons]
      constructor
      · rintro ⟨rfl, h⟩; exact ⟨rfl, h⟩
      · rintro ⟨rfl, h⟩; exact ⟨rfl, h⟩

theorem includes_iff (s p : Str) : includes s p = true ↔ p <:+: s := by
  induction s with
  | nil => cases p <;> simp [includes]
  | cons c cs ih =>
    simp only [includes, Bool.or_eq_true, startsWith_iff, ih, List.infix_cons_iff]

/-- C8: `checkForStopPhrase(text)` is true exactly when some phrase of the
stop-phrase list is a substring of the lower-cased text, whatever the list; with
the empty list it is false for every text. -/
theorem checkForStopPhrase_iff (h : Host) (s : State) (text : Str) :
    (checkForStopPhrase h s text = true ↔
      ∃ phrase ∈ s.stopWords, phrase <:+: toLowerCase h text) ∧
    checkForStopPhrase h { s with stopWords := [] } text = false := by
  constructor
  · simp only [checkForStopPhrase, List.any_eq_true, includes_iff]
  · rfl


theorem lowerFrom_eq_lowerEach (h : Host) (before s : Str) (hs : capitalSigma ∉ s) :
    h.lowerFrom before s = h.lowerEach s := by
  induction s generalizing before with
  | nil => rfl
  | cons c rest ih =>
    have hc : c ≠ capitalSigma := fun e => hs (e ▸ List.mem_cons_self _ _)
    have hr : capitalSigma ∉ rest := fun e => hs (List.mem_cons_of_mem _ e)
    simp only [Host.lowerFrom, hc, false_and, if_false, ih _ hr, Host.lowerEach, List.map_cons,
      List.flatten_cons]

theorem toLowerCase_eq_lowerEach (h : Host) (s : Str) (hs : capitalSigma ∉ s) :
    toLowerCase h s = h.lowerEach s :=
  lowerFrom_eq_lowerEach h [] s hs

theorem lowerEach_append (h : Host) (a b : Str) :
    h.lowerEach (a ++ b) = h.lowerEach a ++ h.lowerEach b := by
  simp [Host.lowerEach]

theorem lowerEach_infix (h : Host) {p s : Str} (hp : p <:+: s) :
    h.lowerEach p <:+: h.lowerEach s := by
  obtain ⟨a, b, rfl⟩ := hp
  exact ⟨h.lowerEach a, h.lowerEach b, by simp [lowerEach_append]⟩

theorem not_mem_of_infix {c : Char} {p s : Str} (hp : p <:+: s) (hs : c ∉ s) : c ∉ p :=
  fun hc => hs (hp.subset hc)

theorem lowerEach_variants (h : Host) (name phrase : Str) (hp : phrase ∈ nameVariantsOf name) :
    h.lowerEach phrase ∈ nameVariantsOf (h.lowerEach name) := by
  simp only [nameVariantsOf, List.mem_cons, List.mem_singleton, List.not_mem_nil, or_false] at hp
  rcases hp with rfl | rfl | rfl | rfl | rfl | rfl | rfl | rfl | rfl <;>
    simp [nameVariantsOf, lowerEach_append, Host.lowerEach, Host.lowerMapping]

/-! ## Field lemmas -/

theorem pendingOf_clearTimeout_dialogue {s : State} (hs : s.WF) :
    pendingOf TimerKind.dialogue (clearTimeout s.dialogueTimeout s) = [] := by
  unfold pendingOf
  rw [List.map_eq_nil_iff, List.filter_eq_nil_iff]
  intro t ht
  rw [clearTimeout_dialogue_rest hs t ht]
  decide

theorem pendingOf_resetDialogueTimeout {s : State} (hs : s.WF) :
    pendingOf TimerKind.dialogue (resetDialogueTimeout s) = [s.nextTimerId] := by
  have h0 := pendingOf_clearTimeout_dialogue hs
  have hn : (clearTimeout s.dialogueTimeout s).nextTimerId = s.nextTimerId := by
    cases s.dialogueTimeout <;> rfl
  unfold pendingOf at *
  simp only [resetDialogueTimeout, setTimeout, List.filter_append, List.map_append, h0, hn]
  rfl

theorem pendingOf_exitDialogueMode {s : State} (hs : s.WF) :
    pendingOf TimerKind.dialogue (exitDialogueMode s) = [] :=
  pendingOf_clearTimeout_dialogue (s := { s with mode := AgentMode.idle })
    (WF_frame hs rfl rfl rfl rfl rfl rfl)

theorem toLowerCase_ne_nil (h : Host) {s : Str} (hs : s ≠ []) : toLowerCase h s ≠ [] := by
  cases s with
  | nil => exact absurd rfl hs
  | cons c rest =>
    have hm : h.lowerMapping c ≠ [] := by
      unfold Host.lowerMapping; split
      · simp
      · exact h.lowerTable_ne c
    simp only [toLowerCase, Host.lowerFrom]
    split <;> simp [hm]

theorem text_ne_nil_of_checkForName (h : Host) {s : State} {text : Str}
    (hname : s.agentName ≠ [])
    (hvars : s.nameVariants = nameVariantsOf (toLowerCase h s.agentName))
    (hc : checkForName h s text = true) : text ≠ [] := by
  rintro rfl
  have hl := toLowerCase_ne_nil h hname
  simp only [checkForName, hvars, toLowerCase, Host.lowerFrom, List.any_eq_true, includes,
    List.isEmpty_iff] at hc
  obtain ⟨v, hv, rfl⟩ := hc
  simp only [toLowerCase] at hl
  simp only [nameVariantsOf, List.mem_cons, List.mem_singleton, List.not_mem_nil, or_false] at hv
  rcases hv with e | e | e | e | e | e | e | e | e
  · exact hl e.symm
  all_goals simp at e

theorem text_ne_nil_of_checkForStopPhrase (h : Host) {s : State} {text : Str}
    (hstop : [] ∉ s.stopWords) (hc : checkForStopPhrase h s text = true) : text ≠ [] := by
  rintro rfl
  simp only [checkForStopPhrase, toLowerCase, Host.lowerFrom, List.any_eq_true, includes,
    List.isEmpty_iff] at hc
  obtain ⟨v, hv, rfl⟩ := hc
  exact hstop hv

theorem sendEvent_outbox (c : Command) (s : State) :
    (sendEvent c s).outbox =
      if s.dataChannel = some ReadyState.ready then s.outbox ++ [c] else s.outbox := by
  unfold sendEvent; split <;> rfl

theorem clearTimeout_fields (handle : Option Nat) (s : State) :
    (clearTimeout handle s).mode = s.mode ∧ (clearTimeout handle s).outbox = s.outbox ∧
    (clearTimeout handle s).isSpeaking = s.isSpeaking ∧
    (clearTimeout handle s).dataChannel = s.dataChannel ∧
    (clearTimeout handle s).nextTimerId = s.nextTimerId ∧
    (clearTimeout handle s).processed = s.processed ∧
    (clearTimeout handle s).transcriptBuffer = s.transcriptBuffer := by
  cases handle <;> simp [clearTimeout]

theorem resetDialogueTimeout_fields (s : State) :
    (resetDialogueTimeout s).mode = s.mode ∧ (resetDialogueTimeout s).outbox = s.outbox ∧
    (resetDialogueTimeout s).isSpeaking = s.isSpeaking ∧
    (resetDialogueTimeout s).dataChannel = s.dataChannel ∧
    (resetDialogueTimeout s).dialogueTimeout = some s.nextTimerId ∧
    (resetDialogueTimeout s).processed = s.processed ∧
    (resetDialogueTimeout s).transcriptBuffer = s.transcriptBuffer := by
  obtain ⟨a, b, c, d, e, f, g⟩ := clearTimeout_fields s.dialogueTimeout s
  simp [resetDialogueTimeout, setTimeout, a, b, c, d, e, f, g]

theorem sendEvent_fields (c : Command) (s : State) :
    (sendEvent c s).mode = s.mode ∧ (sendEvent c s).isSpeaking = s.isSpeaking ∧
    (sendEvent c s).dataChannel = s.dataChannel ∧
    (sendEvent c s).nextTimerId = s.nextTimerId ∧
    (sendEvent c s).timers = s.timers ∧
    (sendEvent c s).dialogueTimeout = s.dialogueTimeout ∧
    (sendEvent c s).transcriptTimer = s.transcriptTimer ∧
    (sendEvent c s).processed = s.processed ∧
    (sendEvent c s).transcriptBuffer = s.transcriptBuffer := by
  unfold sendEvent; split <;> simp

theorem respond_fields (s : State) :
    (respond s).mode = s.mode ∧ (respond s).isSpeaking = true ∧
    (respond s).dataChannel = s.dataChannel ∧
    (respond s).nextTimerId = s.nextTimerId ∧
    (respond s).timers = s.timers ∧
    (respond s).dialogueTimeout = s.dialogueTimeout ∧
    (respond s).transcriptTimer = s.transcriptTimer ∧
    (respond s).processed = s.processed ∧
    (respond s).transcriptBuffer = s.transcriptBuffer ∧
    (respond s).outbox =
      if s.dataChannel = some ReadyState.ready then s.outbox ++ [Command.responseCreate]
      else s.outbox := by
  unfold respond sendEvent; split <;> simp_all

theorem exitDialogueMode_fields (s : State) :
    (exitDialogueMode s).mode = AgentMode.idle ∧ (exitDialogueMode s).outbox = s.outbox ∧
    (exitDialogueMode s).isSpeaking = s.isSpeaking ∧
    (exitDialogueMode s).processed = s.processed ∧
    (exitDialogueMode s).transcriptBuffer = s.transcriptBuffer := by
  obtain ⟨a, b, c, _, _, f, g⟩ := clearTimeout_fields s.dialogueTimeout { s with mode := AgentMode.idle }
  exact ⟨a, b, c, f, g⟩

theorem processTranscript_eq_wake (h : Host) (s : State) (U : Str) (hne : U ≠ [])
    (hmode : s.mode = AgentMode.idle) (hname : checkForName h s U = true) :
    processTranscript h U s =
      respond (enterDialogueMode { s with processed := s.processed ++ [U] }) := by
  have hname' : checkForName h
      { s with processed := s.processed ++ [U], mode := AgentMode.idle } U = true := hname
  unfold processTranscript
  rw [if_neg hne]
  simp only [hmode, hname', if_true]

theorem processTranscript_eq_ignored (h : Host) (s : State) (U : Str) (hne : U ≠ [])
    (hmode : s.mode = AgentMode.idle) (hname : checkForName h s U = false) :
    processTranscript h U s = { s with processed := s.processed ++ [U] } := by
  have hname' : checkForName h
      { s with processed := s.processed ++ [U], mode := AgentMode.idle } U = false := hname
  unfold processTranscript
  rw [if_neg hne]
  simp only [hmode, hname', Bool.false_eq_true, if_false]

theorem processTranscript_eq_stop (h : Host) (s : State) (U : Str) (hne : U ≠ [])
    (hmode : s.mode = AgentMode.dialogue) (hstop : checkForStopPhrase h s U = true) :
    processTranscript h U s = exitDialogueMode { s with processed := s.processed ++ [U] } := by
  have hstop' : checkForStopPhrase h
      { s with processed := s.processed ++ [U], mode := AgentMode.dialogue } U = true := hstop
  unfold processTranscript
  rw [if_neg hne]
  simp only [hmode, hstop', if_true]

theorem processTranscript_eq_reply (h : Host) (s : State) (U : Str) (hne : U ≠ [])
    (hmode : s.mode = AgentMode.dialogue) (hstop : checkForStopPhrase h s U = false) :
    processTranscript h U s =
      resetDialogueTimeout (respond { s with processed := s.processed ++ [U] }) := by
  have hstop' : checkForStopPhrase h
      { s with processed := s.processed ++ [U], mode := AgentMode.dialogue } U = false := hstop
  unfold processTranscript
  rw [if_neg hne]
  simp only [hmode, hstop', Bool.false_eq_true, if_false]

/-! ## Finalized utterances: `processTranscript` -/

/-- C1, amended: in a state of mode Idle whose wake variants were generated from
the agent name by `updateNameVariants`, if `checkForName(U)` is true then
`processTranscript(U)` leaves the mode equal to Dialogue and leaves exactly one
dialogue timeout armed, the one the variable `dialogueTimeout` refers to; it emits
exactly one `response.create` command when the data channel is open and no command
when it is not. -/
theorem processTranscript_wake (h : Host) (s : State) (U : Str) (hwf : s.WF)
    (hmode : s.mode = AgentMode.idle)
    (hvars : s.nameVariants = (updateNameVariants h s).nameVariants)
    (hname : checkForName h s U = true) :
    (processTranscript h U s).mode = AgentMode.dialogue ∧
    (processTranscript h U s).outbox =
      (if s.dataChannel = some ReadyState.ready then s.outbox ++ [Command.responseCreate]
        else s.outbox) ∧
    (processTranscript h U s).dialogueTimeout = some s.nextTimerId ∧
    pendingOf TimerKind.dialogue (processTranscript h U s) = [s.nextTimerId] := by
  have hne : U ≠ [] := text_ne_nil_of_checkForName h hwf.2.2.2.2.2.2.2.1 hvars hname
  have hwf' : ({ s with processed := s.processed ++ [U], mode := AgentMode.dialogue } : State).WF :=
    WF_frame hwf rfl rfl rfl rfl rfl rfl
  have hp := pendingOf_resetDialogueTimeout hwf'
  obtain ⟨a, b, _, d, e, _⟩ := resetDialogueTimeout_fields
    { s with processed := s.processed ++ [U], mode := AgentMode.dialogue }
  obtain ⟨r1, _, _, _, r5, r6, _, _, _, r10⟩ := respond_fields
    (enterDialogueMode { s with processed := s.processed ++ [U] })
  rw [processTranscript_eq_wake h s U hne hmode hname]
  refine ⟨r1.trans a, ?_, r6.trans e, ?_⟩
  · rw [r10]; unfold enterDialogueMode; rw [d, b]
  · unfold pendingOf at hp ⊢; rw [r5]; exact hp

/-- C1, worked example on an open channel: agent name "Alex", utterance
"Alex, what time is it". -/
theorem processTranscript_wake_witness :
    listening.WF ∧ listening.mode = AgentMode.idle ∧
    listening.nameVariants = (updateNameVariants sampleHost listening).nameVariants ∧
    checkForName sampleHost listening wakeUtterance = true ∧
    (processTranscript sampleHost wakeUtterance listening).mode = AgentMode.dialogue ∧
    (processTranscript sampleHost wakeUtterance listening).outbox =
      listening.outbox ++ [Command.responseCreate] ∧
    pendingOf TimerKind.dialogue (processTranscript sampleHost wakeUtterance listening) = [1] := by
  have h := processTranscript_wake sampleHost listening wakeUtterance (by decide) (by decide)
    (by decide) (by decide)
  exact ⟨by decide, by decide, by decide, by decide, h.1, h.2.1, h.2.2.2⟩

/-- C1 as stated fails: agent name "Alex", mode Idle, utterance "Alex, what time is
it", data channel closing; `processTranscript` emits nothing. -/
theorem processTranscript_wake_closed_channel :
    Reachable sampleHost closingIdle ∧
    closingIdle.mode = AgentMode.idle ∧
    closingIdle.agentName = "Alex".toList ∧
    closingIdle.nameVariants = (updateNameVariants sampleHost closingIdle).nameVariants ∧
    checkForName sampleHost closingIdle wakeUtterance = true ∧
    closingIdle.dataChannel = some ReadyState.closing ∧
    (processTranscript sampleHost wakeUtterance closingIdle).mode = AgentMode.dialogue ∧
    (processTranscript sampleHost wakeUtterance closingIdle).outbox = closingIdle.outbox :=
  ⟨((Reachable.initial sampleHost [] []).run sessionEvents).run _, by decide⟩

/-- C2: in a state of mode Idle, if `checkForName(U)` is false then
`processTranscript(U)` emits no command and leaves the mode, the speaking flag,
the variable `dialogueTimeout` and the scheduled timers unchanged, whether or not
`U` contains a stop phrase. -/
theorem processTranscript_idle_ignored (h : Host) (s : State) (U : Str)
    (hmode : s.mode = AgentMode.idle) (hname : checkForName h s U = false) :
    (processTranscript h U s).outbox = s.outbox ∧
    (processTranscript h U s).mode = s.mode ∧
    (processTranscript h U s).isSpeaking = s.isSpeaking ∧
    (processTranscript h U s).dialogueTimeout = s.dialogueTimeout ∧
    (processTranscript h U s).timers = s.timers ∧
    (processTranscript h U s).nextTimerId = s.nextTimerId := by
  by_cases hne : U = []
  · subst hne; simp [processTranscript]
  · rw [processTranscript_eq_ignored h s U hne hmode hname]; simp

/-- C2, worked example: "thanks bye" contains stop phrases and no wake phrase. -/
theorem processTranscript_idle_ignored_witness :
    listening.mode = AgentMode.idle ∧
    checkForStopPhrase sampleHost listening "thanks bye".toList = true ∧
    checkForName sampleHost listening "thanks bye".toList = false ∧
    (processTranscript sampleHost "thanks bye".toList listening).outbox = listening.outbox ∧
    (processTranscript sampleHost "thanks bye".toList listening).mode = AgentMode.idle :=
  have h := processTranscript_idle_ignored sampleHost listening "thanks bye".toList
    (by decide) (by decide)
  ⟨by decide, by decide, by decide, h.1, h.2.1⟩

/-- C3: in a state of mode Dialogue, if `checkForStopPhrase(U)` is true then
`processTranscript(U)` leaves the mode equal to Idle, emits no command (so no
`response.create`) and leaves no dialogue timeout pending, whether or not `U`
contains the wake name. -/
theorem processTranscript_stop (h : Host) (s : State) (U : Str) (hwf : s.WF)
    (hmode : s.mode = AgentMode.dialogue) (hstop : checkForStopPhrase h s U = true) :
    (processTranscript h U s).mode = AgentMode.idle ∧
    (processTranscript h U s).outbox = s.outbox ∧
    pendingOf TimerKind.dialogue (processTranscript h U s) = [] := by
  have hne : U ≠ [] := text_ne_nil_of_checkForStopPhrase h hwf.2.2.2.2.2.2.2.2 hstop
  have hwf' : ({ s with processed := s.processed ++ [U] } : State).WF :=
    WF_frame hwf rfl rfl rfl rfl rfl rfl
  rw [processTranscript_eq_stop h s U hne hmode hstop]
  obtain ⟨a, b, _⟩ := exitDialogueMode_fields { s with processed := s.processed ++ [U] }
  exact ⟨a, b, pendingOf_exitDialogueMode hwf'⟩

/-- C3, worked example: stop words "thanks, stop, enough, bye", utterance
"thanks bye" while in dialogue. -/
theorem processTranscript_stop_witness :
    inDialogue.WF ∧ inDialogue.mode = AgentMode.dialogue ∧
    inDialogue.stopWords = (updateStopWords sampleHost DEFAULT_STOP_WORDS inDialogue).stopWords ∧
    pendingOf TimerKind.dialogue inDialogue = [2] ∧
    checkForStopPhrase sampleHost inDialogue "thanks bye".toList = true ∧
    (processTranscript sampleHost "thanks bye".toList inDialogue).mode = AgentMode.idle ∧
    (processTranscript sampleHost "thanks bye".toList inDialogue).outbox = inDialogue.outbox ∧
    pendingOf TimerKind.dialogue (processTranscript sampleHost "thanks bye".toList inDialogue)
      = [] :=
  have h := processTranscript_stop sampleHost inDialogue "thanks bye".toList
    (by decide) (by decide) (by decide)
  ⟨by decide, by decide, by decide, by decide, by decide, h.1, h.2.1, h.2.2⟩

/-- C4, amended: in a state of mode Dialogue, for a non-empty utterance `U` with
`checkForStopPhrase(U)` false, `processTranscript(U)` keeps the mode equal to
Dialogue, sets the speaking flag and replaces the dialogue timeout with a freshly
armed one (a new identifier, the only dialogue timer pending), whether or not `U`
contains the wake name; it emits exactly one `response.create` command when the
data channel is open and no command when it is not. -/
theorem processTranscript_dialogue_reply (h : Host) (s : State) (U : Str) (hwf : s.WF)
    (hmode : s.mode = AgentMode.dialogue) (hne : U ≠ [])
    (hstop : checkForStopPhrase h s U = false) :
    (processTranscript h U s).mode = AgentMode.dialogue ∧
    (processTranscript h U s).outbox =
      (if s.dataChannel = some ReadyState.ready then s.outbox ++ [Command.responseCreate]
        else s.outbox) ∧
    (processTranscript h U s).isSpeaking = true ∧
    (processTranscript h U s).dialogueTimeout = some s.nextTimerId ∧
    pendingOf TimerKind.dialogue (processTranscript h U s) = [s.nextTimerId] ∧
    s.nextTimerId ∉ s.timers.map Prod.fst := by
  have hwf' : (respond { s with processed := s.processed ++ [U] } : State).WF :=
    WF_respond (WF_frame hwf rfl rfl rfl rfl rfl rfl)
  have hp := pendingOf_resetDialogueTimeout hwf'
  obtain ⟨a, b, c, _, e, _⟩ := resetDialogueTimeout_fields
    (respond { s with processed := s.processed ++ [U] })
  obtain ⟨r1, r2, _, r4, _, _, _, _, _, r10⟩ := respond_fields
    { s with processed := s.processed ++ [U] }
  rw [processTranscript_eq_reply h s U hne hmode hstop]
  refine ⟨(a.trans r1).trans hmode, b.trans r10, c.trans r2, ?_, ?_, ?_⟩
  · rw [e, r4]
  · rw [hp, r4]
  · intro hmem
    obtain ⟨t, ht, hteq⟩ := List.mem_map.1 hmem
    have := hwf.2.1 t ht
    omega

/-- C4, worked example on an open channel: "and tomorrow" while in dialogue. -/
theorem processTranscript_dialogue_reply_witness :
    inDialogue.WF ∧ inDialogue.mode = AgentMode.dialogue ∧
    checkForStopPhrase sampleHost inDialogue "and tomorrow".toList = false ∧
    (processTranscript sampleHost "and tomorrow".toList inDialogue).mode = AgentMode.dialogue ∧
    (processTranscript sampleHost "and tomorrow".toList inDialogue).outbox =
      inDialogue.outbox ++ [Command.responseCreate] ∧
    (processTranscript sampleHost "and tomorrow".toList inDialogue).isSpeaking = true ∧
    pendingOf TimerKind.dialogue inDialogue = [2] ∧
    pendingOf TimerKind.dialogue (processTranscript sampleHost "and tomorrow".toList inDialogue)
      = [3] :=
  have h := processTranscript_dialogue_reply sampleHost inDialogue "and tomorrow".toList
    (by decide) (by decide) (by decide) (by decide)
  ⟨by decide, by decide, by decide, h.1, h.2.1, h.2.2.1, by decide, h.2.2.2.2.1⟩

/-- C4 as stated fails: mode Dialogue, utterance "and tomorrow" without a stop
phrase, data channel closing; `processTranscript` emits nothing. -/
theorem processTranscript_reply_closed_channel :
    Reachable sampleHost closingDialogue ∧
    closingDialogue.mode = AgentMode.dialogue ∧
    "and tomorrow".toList ≠ [] ∧
    checkForStopPhrase sampleHost closingDialogue "and tomorrow".toList = false ∧
    closingDialogue.dataChannel = some ReadyState.closing ∧
    (processTranscript sampleHost "and tomorrow".toList closingDialogue).outbox =
      closingDialogue.outbox :=
  ⟨(((Reachable.initial sampleHost [] []).run sessionEvents).run _).run _, by decide⟩

/-! ## Wake phrases -/

/-- Lower-casing of a string that continues an earlier one: what was written
for the earlier part, then the lower-casing of the rest in its context. -/
theorem lowerFrom_append (h : Host) (before a rest : Str) :
    ∃ written : Str,
      h.lowerFrom before (a ++ rest) = written ++ h.lowerFrom (a.reverse ++ before) rest := by
  induction a generalizing before with
  | nil => exact ⟨[], rfl⟩
  | cons c a ih =>
    obtain ⟨w, hw⟩ := ih (c :: before)
    refine ⟨(if c = capitalSigma ∧ h.finalSigma before (a ++ rest) = true then [finalSigmaChar]
      else h.lowerMapping c) ++ w, ?_⟩
    have e : h.lowerFrom before (c :: (a ++ rest)) =
        (if c = capitalSigma ∧ h.finalSigma before (a ++ rest) = true then [finalSigmaChar]
          else h.lowerMapping c) ++ h.lowerFrom (c :: before) (a ++ rest) := by
      simp only [Host.lowerFrom]
    rw [List.cons_append, e, hw]
    simp

/-- A stretch without the capital sigma is lower-cased character by character,
whatever surrounds it. -/
theorem lowerFrom_clean_append (h : Host) (before p rest : Str) (hp : capitalSigma ∉ p) :
    h.lowerFrom before (p ++ rest) = h.lowerEach p ++ h.lowerFrom (p.reverse ++ before) rest := by
  induction p generalizing before with
  | nil => rfl
  | cons c p ih =>
    have hc : c ≠ capitalSigma := fun e => hp (e ▸ List.mem_cons_self _ _)
    have hr : capitalSigma ∉ p := fun e => hp (List.mem_cons_of_mem _ e)
    have e : h.lowerFrom before (c :: (p ++ rest)) =
        h.lowerMapping c ++ h.lowerFrom (c :: before) (p ++ rest) := by
      simp only [Host.lowerFrom, hc, false_and, if_false]
    rw [List.cons_append, e, ih _ hr]
    simp [Host.lowerEach]

/-- The lower-cased text contains the character-by-character lower-casing of
every stretch of the text that has no capital sigma. -/
theorem lowerEach_infix_toLowerCase (h : Host) {p text : Str} (hp : capitalSigma ∉ p)
    (hsub : p <:+: text) : h.lowerEach p <:+: toLowerCase h text := by
  obtain ⟨a, b, rfl⟩ := hsub
  obtain ⟨w, hw⟩ := lowerFrom_append h [] a (p ++ b)
  refine ⟨w, h.lowerFrom (p.reverse ++ (a.reverse ++ [])) b, ?_⟩
  show w ++ h.lowerEach p ++ _ = h.lowerFrom [] (a ++ p ++ b)
  rw [List.append_assoc a p b, hw, lowerFrom_clean_append h _ p b hp, List.append_assoc]

theorem variants_without_sigma (name phrase : Str) (hn : capitalSigma ∉ name)
    (hp : phrase ∈ nameVariantsOf name) : capitalSigma ∉ phrase := by
  simp only [nameVariantsOf, List.mem_cons, List.mem_singleton, List.not_mem_nil, or_false] at hp
  have hs : ∀ c : Str, (decide (capitalSigma ∈ c) = false) → capitalSigma ∉ c :=
    fun c hc hm => by simp [hm] at hc
  rcases hp with rfl | rfl | rfl | rfl | rfl | rfl | rfl | rfl | rfl
  · exact hn
  all_goals
    intro hm
    rcases List.mem_append.1 hm with e | e
    · first
        | exact hn e
        | exact hs _ (by decide) e
    · first
        | exact hn e
        | exact hs _ (by decide) e

/-- C9, amended: for every agent name `N` without the Greek capital sigma
(U+03A3), after `updateNameVariants` has generated the wake variants from `N`,
`checkForName(text)` is true for every text that contains `N` verbatim, in any
surrounding text, or one of the phrases "hey N", "hi N", "hello N", "listen N",
"tell me N", "N tell me", "N answer", "N what". -/
theorem checkForName_of_phrase (h : Host) (s : State) (text phrase : Str)
    (hsigma : capitalSigma ∉ s.agentName)
    (hphrase : phrase ∈ [s.agentName, "hey ".toList ++ s.agentName, "hi ".toList ++ s.agentName,
      "hello ".toList ++ s.agentName, "listen ".toList ++ s.agentName,
      "tell me ".toList ++ s.agentName, s.agentName ++ " tell me".toList,
      s.agentName ++ " answer".toList, s.agentName ++ " what".toList])
    (hsub : phrase <:+: text) :
    checkForName h (updateNameVariants h s) text = true := by
  have hclean : capitalSigma ∉ phrase := variants_without_sigma s.agentName phrase hsigma hphrase
  have hv := lowerEach_variants h s.agentName phrase hphrase
  simp only [checkForName, updateNameVariants, List.any_eq_true, includes_iff]
  rw [toLowerCase_eq_lowerEach h _ hsigma]
  exact ⟨_, hv, lowerEach_infix_toLowerCase h hclean hsub⟩

/-- C9, worked example: agent name "Alex", a text that contains "hey Alex" and
goes on with a Greek word in capitals, sigma and alpha. -/
theorem checkForName_of_phrase_witness :
    capitalSigma ∉ listening.agentName ∧
    capitalSigma ∈ sigmaText ∧
    "hey ".toList ++ listening.agentName <:+: sigmaText ∧
    checkForName sampleHost (updateNameVariants sampleHost listening) sigmaText = true :=
  ⟨by decide, by decide, ⟨"so, ".toList, [' ', capitalSigma, Char.ofNat 0x391], by decide⟩,
    checkForName_of_phrase sampleHost listening sigmaText
      ("hey ".toList ++ listening.agentName) (by decide) (by decide)
      ⟨"so, ".toList, [' ', capitalSigma, Char.ofNat 0x391], by decide⟩⟩

/-- C9 as stated fails: the agent name is alpha, sigma in Greek capitals and the
text is alpha, sigma, alpha.  The text contains the name verbatim, but the name
lower-cases to alpha, final sigma and the text to alpha, sigma, alpha, so no wake
variant is a substring of the lower-cased text. -/
theorem checkForName_final_sigma :
    Reachable sampleHost greekSession ∧
    greekSession.agentName = greekName ∧
    greekSession.nameVariants = (updateNameVariants sampleHost greekSession).nameVariants ∧
    greekName <:+: greekText ∧
    toLowerCase sampleHost greekName = [Char.ofNat 0x3B1, Char.ofNat 0x3C2] ∧
    toLowerCase sampleHost greekText = [Char.ofNat 0x3B1, Char.ofNat 0x3C3, Char.ofNat 0x3B1] ∧
    checkForName sampleHost greekSession greekText = false :=
  ⟨(Reachable.initial sampleHost [] []).run _, by decide, by decide,
    ⟨[], [Char.ofNat 0x391], by decide⟩, by decide, by decide, by decide⟩

/-! ## Tool calls -/

theorem sendToolResult_outbox (callId : Str) (r : JsObj) (s : State)
    (hopen : s.dataChannel = some ReadyState.ready) :
    (sendToolResult callId r s).outbox = s.outbox ++
      [Command.functionCallOutput callId (jsonStringify r), Command.responseCreate] := by
  simp [sendToolResult, sendEvent, hopen]

/-- C5, amended: for every `response.function_call_arguments.done` event
handled while the channel is open, `handleFunctionCall` emits exactly two commands
in this order, a `conversation.item.create` with a `function_call_output` item
carrying the `call_id` of the event, then a `response.create`: at once when the
result is at hand, and when the call waits for the web search, once the `fetch`
has settled with the channel open.  When the arguments string is not empty and is
not parsable as JSON, the output of that item is the JSON encoding of an object
with the single field `error`.  (An empty arguments string is read as `{}`.) -/
theorem handleFunctionCall_replies (h : Host) (s : State) (data : FunctionCallData)
    (hopen : s.dataChannel = some ReadyState.ready) :
    (∀ r, dispatchTool h s data = Dispatch.result r →
      (handleFunctionCall h data s).outbox = s.outbox ++
        [Command.functionCallOutput data.callId (jsonStringify r), Command.responseCreate]) ∧
    (∀ q, dispatchTool h s data = Dispatch.awaitFetch q →
      (handleFunctionCall h data s).outbox = s.outbox ∧
      (handleFunctionCall h data s).inFlight = s.inFlight ++ [⟨data.callId, q⟩] ∧
      ∀ (s' : State) (i : Nat) (outcome : FetchOutcome),
        s'.dataChannel = some ReadyState.ready →
        s'.inFlight.get? i = some ⟨data.callId, q⟩ →
        (resumeFunctionCall i outcome s').outbox = s'.outbox ++
          [Command.functionCallOutput data.callId (jsonStringify (webSearchResult q outcome)),
            Command.responseCreate]) ∧
    (∀ a m, data.arguments = some a → a ≠ [] → h.jsonParse a = Parsed.syntaxError m →
      (handleFunctionCall h data s).outbox = s.outbox ++
        [Command.functionCallOutput data.callId
            (jsonStringify [("error".toList, JsVal.str m)]),
          Command.responseCreate]) := by
  refine ⟨?_, ?_, ?_⟩
  · intro r hr
    unfold handleFunctionCall
    rw [hr]
    exact sendToolResult_outbox _ _ _ hopen
  · intro q hq
    unfold handleFunctionCall
    rw [hq]
    refine ⟨rfl, rfl, ?_⟩
    intro s' i outcome hopen' hget
    unfold resumeFunctionCall
    rw [hget]
    exact sendToolResult_outbox _ _ _ hopen'
  · intro a m ha hne hparse
    have hd : dispatchTool h s data = Dispatch.result [("error".toList, JsVal.str m)] := by
      unfold dispatchTool argsOrDefault
      rw [ha]
      simp only [hne, if_false, hparse]
    unfold handleFunctionCall
    rw [hd]
    exact sendToolResult_outbox _ _ _ hopen

/-- C5, worked example: a calculator call with the arguments `{oops`. -/
theorem handleFunctionCall_replies_witness :
    listening.dataChannel = some ReadyState.ready ∧
    sampleHost.jsonParse "\x7boops".toList = Parsed.syntaxError "Unexpected token".toList ∧
    (handleFunctionCall sampleHost badArgsCall listening).outbox = listening.outbox ++
      [Command.functionCallOutput "call_7".toList
          "\x7b\"error\":\"Unexpected token\"\x7d".toList,
        Command.responseCreate] :=
  ⟨by decide, by decide,
    (handleFunctionCall_replies sampleHost listening badArgsCall (by decide)).2.2
      "\x7boops".toList "Unexpected token".toList rfl (by decide) (by decide)⟩

/-- C5 as stated fails: the empty arguments string is not parsable as JSON, yet a
`get_current_datetime` call that carries it is answered with the date and time,
an object without an `error` field. -/
theorem handleFunctionCall_empty_arguments :
    Reachable sampleHost listening ∧
    listening.dataChannel = some ReadyState.ready ∧
    emptyArgsCall.arguments = some [] ∧
    sampleHost.jsonParse [] = Parsed.syntaxError "Unexpected token".toList ∧
    dispatchTool sampleHost listening emptyArgsCall =
      Dispatch.result (executeGetDateTime sampleHost) ∧
    (executeGetDateTime sampleHost).lookup "error".toList = none ∧
    (handleFunctionCall sampleHost emptyArgsCall listening).outbox = listening.outbox ++
      [Command.functionCallOutput "call_1".toList
          ("\x7b\"datetime\":\"2024-01-01T00:00:00.000Z\"," ++
            "\"formatted\":\"Monday, January 1, 2024 at 12:00 AM UTC\"," ++
            "\"timestamp\":1704067200000\x7d").toList,
        Command.responseCreate] :=
  ⟨(Reachable.initial sampleHost [] []).run sessionEvents, by decide⟩

/-! ## Transcript accumulation, disconnection and the dialogue timeout -/

theorem trim_eq_nil_iff (s : Str) : trim s = [] ↔ ∀ c ∈ s, isJsWhiteSpace c = true := by
  unfold trim
  rw [List.reverse_eq_nil_iff, List.dropWhile_eq_nil_iff]
  constructor
  · intro hall
    have hd : s.dropWhile isJsWhiteSpace = [] := by
      cases hds : s.dropWhile isJsWhiteSpace with
      | nil => rfl
      | cons c rest =>
        exfalso
        have h1 := List.head_dropWhile_not isJsWhiteSpace s (by rw [hds]; simp)
        have h2 := hall c (by rw [hds]; simp)
        simp only [hds, List.head_cons] at h1
        rw [h2] at h1; cases h1
    exact List.dropWhile_eq_nil_iff.1 hd
  · intro hall c hc
    exact hall c ((List.dropWhile_suffix _).subset (List.mem_reverse.1 hc))

theorem finalizeTranscript_fields (s : State) :
    (finalizeTranscript s).transcriptBuffer = s.transcriptBuffer ∧
    (finalizeTranscript s).processed = s.processed ∧
    (finalizeTranscript s).outbox = s.outbox := by
  obtain ⟨_, b, _, _, _, f, g⟩ := clearTimeout_fields s.transcriptTimer s
  simp [finalizeTranscript, setTimeout, b, f, g]

theorem handleTranscription_fields (f : Str) (s : State) (hf : trim f ≠ []) :
    (handleTranscription f s).transcriptBuffer = s.transcriptBuffer ++ ' ' :: f ∧
    (handleTranscription f s).processed = s.processed ∧
    (handleTranscription f s).outbox = s.outbox := by
  have hne : f ≠ [] := by rintro rfl; exact hf rfl
  unfold handleTranscription
  rw [if_neg (by simp [hne, hf])]
  simp only []
  split
  · obtain ⟨a, b, c⟩ := finalizeTranscript_fields
      { s with transcriptBuffer := s.transcriptBuffer ++ ' ' :: f }
    exact ⟨a, b, c⟩
  · exact ⟨rfl, rfl, rfl⟩

theorem deliver_fields (frags : List Str) (s : State) (hfr : ∀ f ∈ frags, trim f ≠ []) :
    (deliver frags s).transcriptBuffer =
      s.transcriptBuffer ++ (frags.map (fun f => ' ' :: f)).flatten ∧
    (deliver frags s).processed = s.processed ∧
    (deliver frags s).outbox = s.outbox := by
  induction frags generalizing s with
  | nil => simp [deliver]
  | cons f rest ih =>
    obtain ⟨a, b, c⟩ := handleTranscription_fields f s (hfr f (List.mem_cons_self _ _))
    obtain ⟨a', b', c'⟩ := ih (handleTranscription f s)
      (fun g hg => hfr g (List.mem_cons_of_mem _ hg))
    simp only [deliver, List.foldl_cons] at a' b' c' ⊢
    refine ⟨?_, b'.trans b, c'.trans c⟩
    rw [a', a]; simp

theorem WF_deliver (frags : List Str) {s : State} (hs : s.WF) : (deliver frags s).WF := by
  induction frags generalizing s with
  | nil => exact hs
  | cons f rest ih => exact ih (WF_handleTranscription f hs)

theorem processTranscript_fields (h : Host) (U : Str) (s : State) (hne : U ≠ []) :
    (processTranscript h U s).processed = s.processed ++ [U] ∧
    (processTranscript h U s).transcriptBuffer = s.transcriptBuffer := by
  cases hm : s.mode with
  | idle =>
    cases hn : checkForName h s U with
    | true =>
      rw [processTranscript_eq_wake h s U hne hm hn]
      obtain ⟨_, _, _, _, _, _, _, r8, r9, _⟩ := respond_fields
        (enterDialogueMode { s with processed := s.processed ++ [U] })
      obtain ⟨_, _, _, _, _, f, g⟩ := resetDialogueTimeout_fields
        { s with processed := s.processed ++ [U], mode := AgentMode.dialogue }
      exact ⟨r8.trans f, r9.trans g⟩
    | false =>
      rw [processTranscript_eq_ignored h s U hne hm hn]; exact ⟨rfl, rfl⟩
  | dialogue =>
    cases hn : checkForStopPhrase h s U with
    | true =>
      rw [processTranscript_eq_stop h s U hne hm hn]
      obtain ⟨_, _, _, d, e⟩ := exitDialogueMode_fields { s with processed := s.processed ++ [U] }
      exact ⟨d, e⟩
    | false =>
      rw [processTranscript_eq_reply h s U hne hm hn]
      obtain ⟨_, _, _, _, _, _, _, r8, r9, _⟩ := respond_fields
        { s with processed := s.processed ++ [U] }
      obtain ⟨_, _, _, _, _, f, g⟩ := resetDialogueTimeout_fields
        (respond { s with processed := s.processed ++ [U] })
      exact ⟨f.trans r8, g.trans r9⟩

theorem find_timer {s : State} (hs : s.WF) {id : Nat} {k : TimerKind}
    (hm : (id, k) ∈ s.timers) : s.timers.find? (fun t => t.1 == id) = some (id, k) := by
  have hnd := hs.1
  generalize s.timers = l at hm hnd
  induction l with
  | nil => cases hm
  | cons t rest ih =>
    simp only [List.map_cons, List.nodup_cons] at hnd
    rcases List.mem_cons.1 hm with e | e
    · subst e; simp
    · have hne : t.1 ≠ id := by
        intro e'
        exact hnd.1 (e' ▸ List.mem_map_of_mem Prod.fst e)
      rw [List.find?_cons_of_neg _ (by simpa using hne)]
      exact ih e hnd.2

theorem fireTimer_fields (h : Host) (id : Nat) (s s' : State)
    (hb : s.transcriptBuffer = []) (hf : fireTimer h id s = some s') :
    s'.processed = s.processed ∧ s'.transcriptBuffer = [] := by
  unfold fireTimer at hf
  split at hf
  · cases hf
  · simp only [] at hf
    split at hf
    · cases hf
      obtain ⟨_, _, _, d, e⟩ := exitDialogueMode_fields
        { s with timers := s.timers.filter (fun t => t.1 != id) }
      exact ⟨d, e.trans hb⟩
    · cases hf
      have : trim ({ s with timers := s.timers.filter (fun t => t.1 != id) } : State).transcriptBuffer
          = [] := by
        show trim s.transcriptBuffer = []
        rw [hb]; rfl
      unfold transcriptTimerFired
      rw [if_neg (by simpa using this)]
      exact ⟨rfl, hb⟩

/-- C6: starting from an empty transcript buffer, after a non-empty sequence of
non-blank fragments has gone through `handleTranscription` with no timer firing in
between, the firing of the pending debounce timer hands `processTranscript`
exactly one utterance, the trimmed concatenation of the fragments each preceded by
one space, and resets the buffer to empty; any further timer firing with no new
fragment hands over nothing. -/
theorem debounce_single_utterance (h : Host) (s : State) (frags : List Str) (id : Nat)
    (hwf : s.WF) (hbuf : s.transcriptBuffer = []) (hne : frags ≠ [])
    (hfr : ∀ f ∈ frags, trim f ≠ [])
    (hid : (id, TimerKind.transcript) ∈ (deliver frags s).timers) :
    ∃ s2, fireTimer h id (deliver frags s) = some s2 ∧
      (deliver frags s).processed = s.processed ∧
      s2.processed = s.processed ++ [trim (frags.map (fun f => ' ' :: f)).flatten] ∧
      s2.transcriptBuffer = [] ∧
      ∀ id' s3, fireTimer h id' s2 = some s3 →
        s3.processed = s2.processed ∧ s3.transcriptBuffer = [] := by
  obtain ⟨a, b, _⟩ := deliver_fields frags s hfr
  rw [hbuf, List.nil_append] at a
  have hU : trim (frags.map (fun f => ' ' :: f)).flatten ≠ [] := by
    cases frags with
    | nil => exact absurd rfl hne
    | cons f rest =>
      have hf := hfr f (List.mem_cons_self _ _)
      rw [Ne, trim_eq_nil_iff] at hf ⊢
      intro hall
      apply hf
      intro c hc
      apply hall
      simp only [List.map_cons, List.flatten_cons, List.cons_append, List.mem_cons,
        List.mem_append]
      exact Or.inr (Or.inl hc)
  have hfind := find_timer (WF_deliver frags hwf) hid
  have hfire : fireTimer h id (deliver frags s) = some
      { processTranscript h (trim (frags.map (fun f => ' ' :: f)).flatten)
          { deliver frags s with
            timers := (deliver frags s).timers.filter (fun t => t.1 != id) } with
        transcriptBuffer := [] } := by
    unfold fireTimer
    rw [hfind]
    simp only [transcriptTimerFired, a, hU, ne_eq, not_false_eq_true, if_true]
  refine ⟨_, hfire, b, ?_, rfl, ?_⟩
  · have := (processTranscript_fields h _
      { deliver frags s with timers := (deliver frags s).timers.filter (fun t => t.1 != id) }
      hU).1
    simp only [] at this ⊢
    rw [this, b]
  · intro id' s3 h3
    exact fireTimer_fields h id' _ s3 rfl h3

/-- C6, worked example: the fragments "hello" and "world" give the one
utterance "hello world". -/
theorem debounce_single_utterance_witness :
    listening.WF ∧ listening.transcriptBuffer = [] ∧
    pendingOf TimerKind.transcript (deliver ["hello".toList, "world".toList] listening) = [2] ∧
    ∃ s2, fireTimer sampleHost 2 (deliver ["hello".toList, "world".toList] listening) = some s2 ∧
      s2.processed = ["hello world".toList] ∧ s2.transcriptBuffer = [] ∧
      ∀ id' s3, fireTimer sampleHost id' s2 = some s3 →
        s3.processed = s2.processed ∧ s3.transcriptBuffer = [] := by
  obtain ⟨s2, h1, _, h3, h4, h5⟩ := debounce_single_utterance sampleHost listening
    ["hello".toList, "world".toList] 2 (by decide) (by decide) (by decide) (by decide) (by decide)
  exact ⟨by decide, by decide, by decide, s2, h1, h3, h4, h5⟩

/-- C7: whatever the mode, the buffer and the timers, `disconnect` leaves the
transcript buffer empty, the mode equal to Idle, the speaking flag false and no
timer scheduled, neither debounce timer nor dialogue timeout, so that no timer
armed before the disconnect can fire afterwards. -/
theorem disconnect_resets (s : State) (hwf : s.WF) :
    (disconnect s).transcriptBuffer = [] ∧
    (disconnect s).mode = AgentMode.idle ∧
    (disconnect s).isSpeaking = false ∧
    (disconnect s).timers = [] ∧
    ∀ (h : Host) (id : Nat), fireTimer h id (disconnect s) = none := by
  have ht : (disconnect s).timers = [] := by
    show (clearTimeout (clearTimeout s.dialogueTimeout s).transcriptTimer
      (clearTimeout s.dialogueTimeout s)).timers = []
    have hk := clearTimeout_dialogue_rest hwf
    have htt : (clearTimeout s.dialogueTimeout s).transcriptTimer = s.transcriptTimer := by
      cases s.dialogueTimeout <;> rfl
    have hsub : ∀ t ∈ (clearTimeout s.dialogueTimeout s).timers, t ∈ s.timers := by
      intro t ht
      cases hd : s.dialogueTimeout with
      | none => rw [hd] at ht; exact ht
      | some i => rw [hd] at ht; exact List.mem_of_mem_filter ht
    rw [htt]
    cases hT : s.transcriptTimer with
    | none =>
      simp only [clearTimeout]
      rw [List.eq_nil_iff_forall_not_mem]
      intro t ht
      have := hwf.2.2.2.1 t (hsub t ht) (hk t ht)
      rw [hT] at this; cases this
    | some j =>
      simp only [clearTimeout]
      rw [List.filter_eq_nil_iff]
      intro t ht
      have := hwf.2.2.2.1 t (hsub t ht) (hk t ht)
      rw [hT] at this
      simp only [Option.some.injEq] at this
      simp [this]
  refine ⟨rfl, rfl, rfl, ht, ?_⟩
  intro h id
  unfold fireTimer
  rw [ht]; rfl

/-- C7, worked example: disconnecting in the middle of a dialogue. -/
theorem disconnect_resets_witness :
    inDialogue.WF ∧ inDialogue.timers ≠ [] ∧
    (disconnect inDialogue).transcriptBuffer = [] ∧
    (disconnect inDialogue).mode = AgentMode.idle ∧
    (disconnect inDialogue).isSpeaking = false ∧
    (disconnect inDialogue).timers = [] :=
  have h := disconnect_resets inDialogue (by decide)
  ⟨by decide, by decide, h.1, h.2.1, h.2.2.1, h.2.2.2.1⟩

/-- C10: when the dialogue timeout armed by `resetDialogueTimeout` is still
pending and fires, the mode becomes Idle, no command is emitted (so no
`response.create`) and no dialogue timeout remains pending. -/
theorem dialogue_timeout_elapses (h : Host) (s : State) (id : Nat) (hwf : s.WF)
    (hpending : (id, TimerKind.dialogue) ∈ s.timers) :
    ∃ s2, fireTimer h id s = some s2 ∧
      s2.mode = AgentMode.idle ∧
      s2.outbox = s.outbox ∧
      pendingOf TimerKind.dialogue s2 = [] := by
  have hfind := find_timer hwf hpending
  have hwf2 : ({ s with timers := s.timers.filter (fun t => t.1 != id) } : State).WF :=
    WF_clearTimeout (some id) hwf
  refine ⟨exitDialogueMode { s with timers := s.timers.filter (fun t => t.1 != id) },
    ?_, ?_, ?_, pendingOf_exitDialogueMode hwf2⟩
  · unfold fireTimer; rw [hfind]
  · exact (exitDialogueMode_fields _).1
  · exact (exitDialogueMode_fields _).2.1

/-- C10, worked example: the timeout armed on entering the dialogue (by
`resetDialogueTimeout`, identifier 2) fires. -/
theorem dialogue_timeout_elapses_witness :
    inDialogue.WF ∧ inDialogue.mode = AgentMode.dialogue ∧
    inDialogue.dialogueTimeout = some 2 ∧
    (2, TimerKind.dialogue) ∈ inDialogue.timers ∧
    ∃ s2, fireTimer sampleHost 2 inDialogue = some s2 ∧
      s2.mode = AgentMode.idle ∧
      s2.outbox = inDialogue.outbox ∧
      pendingOf TimerKind.dialogue s2 = [] :=
  ⟨by decide, by decide, by decide, by decide,
    dialogue_timeout_elapses sampleHost inDialogue 2 (by decide) (by decide)⟩

/-! ## Stop words -/

theorem ascii_toLower_facts (c : Char) (hc : c.toNat < 128) :
    c.toLower.toNat < 128 ∧ c.toLower.toLower = c.toLower ∧
    (isJsWhiteSpace c = false → isJsWhiteSpace c.toLower = false) := by
  have key : ∀ n : Fin 128, (Char.ofNat n.val).toLower.toNat < 128 ∧
      (Char.ofNat n.val).toLower.toLower = (Char.ofNat n.val).toLower ∧
      (isJsWhiteSpace (Char.ofNat n.val) = false →
        isJsWhiteSpace (Char.ofNat n.val).toLower = false) := by
    decide
  have := key ⟨c.toNat, hc⟩
  simpa using this


/-- What lower-casing writes for one character at its place in a string. -/
theorem lowerFrom_cons (h : Host) (before : Str) (c : Char) (rest : Str) :
    ∃ out : Str, out ≠ [] ∧ h.lowerFrom before (c :: rest) = out ++ h.lowerFrom (c :: before) rest ∧
      (out = [finalSigmaChar] ∨ out = h.lowerMapping c) := by
  have hm : h.lowerMapping c ≠ [] := by
    unfold Host.lowerMapping; split
    · simp
    · exact h.lowerTable_ne c
  simp only [Host.lowerFrom]
  split
  · exact ⟨_, by simp, rfl, Or.inl rfl⟩
  · exact ⟨_, hm, rfl, Or.inr rfl⟩

theorem lowerMapping_stable (h : Host) (hcase : h.CaseStable) (c d : Char)
    (hd : d ∈ h.lowerMapping c) :
    (isJsWhiteSpace c = false → isJsWhiteSpace d = false) ∧
    h.lowerMapping d = [d] ∧ d ≠ capitalSigma := by
  unfold Host.lowerMapping at hd
  split at hd
  · rename_i hc
    simp only [List.mem_singleton] at hd
    subst hd
    obtain ⟨a, b, w⟩ := ascii_toLower_facts c hc
    refine ⟨w, ?_, ?_⟩
    · unfold Host.lowerMapping; rw [if_pos a, b]
    · intro e
      rw [e] at a
      exact absurd a (by decide)
  · rename_i hc
    exact hcase.2 c (by omega) d hd

theorem finalSigma_stable (h : Host) (hcase : h.CaseStable) :
    isJsWhiteSpace finalSigmaChar = false ∧
    h.lowerMapping finalSigmaChar = [finalSigmaChar] ∧ finalSigmaChar ≠ capitalSigma := by
  refine ⟨by decide, ?_, by decide⟩
  unfold Host.lowerMapping
  rw [if_neg (by decide)]
  exact hcase.1

theorem lowerFrom_stable (h : Host) (hcase : h.CaseStable) (before s : Str) :
    ∀ d ∈ h.lowerFrom before s, h.lowerMapping d = [d] ∧ d ≠ capitalSigma := by
  induction s generalizing before with
  | nil => intro d hd; simp [Host.lowerFrom] at hd
  | cons c rest ih =>
    obtain ⟨out, _, heq, hout⟩ := lowerFrom_cons h before c rest
    intro d hd
    rw [heq, List.mem_append] at hd
    rcases hd with hd | hd
    · rcases hout with e | e
      · rw [e, List.mem_singleton] at hd
        subst hd
        exact (finalSigma_stable h hcase).2
      · rw [e] at hd
        exact (lowerMapping_stable h hcase c d hd).2
    · exact ih _ d hd

theorem lowerEach_fixed (h : Host) (w : Str) (hw : ∀ d ∈ w, h.lowerMapping d = [d]) :
    h.lowerEach w = w := by
  induction w with
  | nil => rfl
  | cons d rest ih =>
    have h1 := hw d (List.mem_cons_self _ _)
    have h2 := ih (fun e he => hw e (List.mem_cons_of_mem _ he))
    simp only [Host.lowerEach, List.map_cons, List.flatten_cons] at h2 ⊢
    rw [h1, h2]; rfl

theorem toLowerCase_idempotent (h : Host) (hcase : h.CaseStable) (s : Str) :
    toLowerCase h (toLowerCase h s) = toLowerCase h s := by
  have hst := lowerFrom_stable h hcase [] s
  have hsig : capitalSigma ∉ toLowerCase h s := fun hm => (hst _ hm).2 rfl
  rw [toLowerCase_eq_lowerEach h _ hsig]
  exact lowerEach_fixed h _ (fun d hd => (hst d hd).1)

theorem lowerFrom_ne_nil (h : Host) (before : Str) {s : Str} (hs : s ≠ []) :
    h.lowerFrom before s ≠ [] := by
  cases s with
  | nil => exact absurd rfl hs
  | cons c rest =>
    obtain ⟨out, hne, heq, _⟩ := lowerFrom_cons h before c rest
    rw [heq]; simp [hne]

theorem out_clean (h : Host) (hcase : h.CaseStable) (c : Char) (out : Str)
    (hout : out = [finalSigmaChar] ∨ out = h.lowerMapping c)
    (hc : isJsWhiteSpace c = false) : ∀ d ∈ out, isJsWhiteSpace d = false := by
  intro d hd
  rcases hout with e | e
  · rw [e, List.mem_singleton] at hd
    subst hd; decide
  · rw [e] at hd
    exact (lowerMapping_stable h hcase c d hd).1 hc

theorem lowerFrom_head (h : Host) (hcase : h.CaseStable) (before s : Str)
    (hs : ∀ c ∈ s.head?, isJsWhiteSpace c = false) :
    ∀ d ∈ (h.lowerFrom before s).head?, isJsWhiteSpace d = false := by
  cases s with
  | nil => intro d hd; simp [Host.lowerFrom] at hd
  | cons c rest =>
    obtain ⟨out, hne, heq, hout⟩ := lowerFrom_cons h before c rest
    have hc := hs c (by simp)
    intro d hd
    rw [heq] at hd
    cases out with
    | nil => exact absurd rfl hne
    | cons o os =>
      simp only [List.cons_append, List.head?_cons, Option.mem_def, Option.some.injEq] at hd
      subst hd
      exact out_clean h hcase c _ hout hc _ (List.mem_cons_self _ _)

theorem lowerFrom_getLast (h : Host) (hcase : h.CaseStable) (before s : Str)
    (hs : ∀ c ∈ s.getLast?, isJsWhiteSpace c = false) :
    ∀ d ∈ (h.lowerFrom before s).getLast?, isJsWhiteSpace d = false := by
  induction s generalizing before with
  | nil => intro d hd; simp [Host.lowerFrom] at hd
  | cons c rest ih =>
    obtain ⟨out, hne, heq, hout⟩ := lowerFrom_cons h before c rest
    intro d hd
    rw [heq] at hd
    cases rest with
    | nil =>
      simp only [Host.lowerFrom, List.append_nil] at hd
      have hc := hs c (by simp)
      exact out_clean h hcase c _ hout hc d (List.mem_of_mem_getLast? hd)
    | cons r rs =>
      have hL := lowerFrom_ne_nil h (c :: before) (s := r :: rs) (by simp)
      have : (out ++ h.lowerFrom (c :: before) (r :: rs)).getLast? =
          (h.lowerFrom (c :: before) (r :: rs)).getLast? := by
        rw [List.getLast?_append]
        cases hg : (h.lowerFrom (c :: before) (r :: rs)).getLast? with
        | none => exact absurd (List.getLast?_eq_none_iff.1 hg) hL
        | some x => rfl
      rw [this] at hd
      refine ih (c :: before) ?_ d hd
      intro x hx
      apply hs x
      rw [List.getLast?_cons_cons]; exact hx

theorem dropWhile_head_clean (l : Str) :
    ∀ c ∈ (l.dropWhile isJsWhiteSpace).head?, isJsWhiteSpace c = false := by
  intro c hc
  have := List.head?_dropWhile_not isJsWhiteSpace l
  rw [Option.mem_def.1 hc] at this
  exact this

theorem trim_getLast (p : Str) : ∀ c ∈ (trim p).getLast?, isJsWhiteSpace c = false := by
  intro c hc
  unfold trim at hc
  rw [List.getLast?_reverse] at hc
  exact dropWhile_head_clean _ c hc

theorem trim_head (p : Str) : ∀ c ∈ (trim p).head?, isJsWhiteSpace c = false := by
  intro c hc
  unfold trim at hc
  rw [List.head?_reverse] at hc
  have hsuf : (p.dropWhile isJsWhiteSpace).reverse.dropWhile isJsWhiteSpace <:+
      (p.dropWhile isJsWhiteSpace).reverse := List.dropWhile_suffix _
  obtain ⟨pre, hpre⟩ := hsuf
  have h2 : ((p.dropWhile isJsWhiteSpace).reverse).getLast? = some c := by
    rw [← hpre, List.getLast?_append, Option.mem_def.1 hc]; rfl
  rw [List.getLast?_reverse] at h2
  exact dropWhile_head_clean p c h2

theorem dropWhile_eq_self (l : Str) (hl : ∀ c ∈ l.head?, isJsWhiteSpace c = false) :
    l.dropWhile isJsWhiteSpace = l := by
  cases l with
  | nil => rfl
  | cons c rest =>
    have := hl c (by simp)
    simp [List.dropWhile_cons, this]

theorem trim_eq_self (w : Str) (h1 : ∀ c ∈ w.head?, isJsWhiteSpace c = false)
    (h2 : ∀ c ∈ w.getLast?, isJsWhiteSpace c = false) : trim w = w := by
  unfold trim
  rw [dropWhile_eq_self w h1, dropWhile_eq_self w.reverse (by rwa [List.head?_reverse]),
    List.reverse_reverse]

theorem splitComma_ne_nil (s : Str) : splitComma s ≠ [] := by
  cases s with
  | nil => simp [splitComma]
  | cons c cs =>
    simp only [splitComma]
    split
    · simp
    · split <;> simp

/-- Joining the pieces with commas gives the string back. -/
theorem splitComma_join (s : Str) : [','].intercalate (splitComma s) = s := by
  induction s with
  | nil => rfl
  | cons c cs ih =>
    simp only [splitComma]
    split
    · rename_i hc
      subst hc
      cases hsp : splitComma cs with
      | nil => exact absurd hsp (splitComma_ne_nil cs)
      | cons p ps =>
        rw [hsp] at ih
        simp only [List.intercalate, List.intersperse_cons_cons, List.flatten_cons,
          List.nil_append, List.singleton_append] at ih ⊢
        rw [ih]
    · cases hsp : splitComma cs with
      | nil => exact absurd hsp (splitComma_ne_nil cs)
      | cons p ps =>
        rw [hsp] at ih
        cases ps with
        | nil =>
          simp only [List.intercalate, List.intersperse_single, List.flatten_cons,
            List.flatten_nil, List.append_nil] at ih ⊢
          rw [ih]
        | cons q qs =>
          simp only [List.intercalate, List.intersperse_cons_cons, List.flatten_cons,
            List.cons_append] at ih ⊢
          rw [ih]

/-- No piece contains a comma. -/
theorem splitComma_no_comma (s : Str) : ∀ p ∈ splitComma s, ',' ∉ p := by
  induction s with
  | nil => intro p hp; simp [splitComma] at hp; subst hp; simp
  | cons c cs ih =>
    intro p hp
    simp only [splitComma] at hp
    split at hp
    · rcases List.mem_cons.1 hp with e | e
      · subst e; simp
      · exact ih p e
    · rename_i hc
      cases hsp : splitComma cs with
      | nil => exact absurd hsp (splitComma_ne_nil cs)
      | cons q qs =>
        rw [hsp] at hp ih
        simp only [List.mem_cons] at hp
        rcases hp with e | e
        · subst e
          intro hm
          rcases List.mem_cons.1 hm with e' | e'
          · exact hc e'.symm
          · exact ih q (List.mem_cons_self _ _) e'
        · exact ih p (List.mem_cons_of_mem _ e)

theorem toNat_ofNat_small (n : Nat) (hn : n < 0xD800) : (Char.ofNat n).toNat = n := by
  have hv : n.isValidChar := Or.inl hn
  simp only [Char.ofNat, hv, dite_true, Char.ofNatAux, Char.toNat]
  rfl

theorem isJsWhiteSpace_eq (c : Char) : isJsWhiteSpace c = true ↔
    (c.toNat = 0x9 ∨ c.toNat = 0xA ∨ c.toNat = 0xB ∨ c.toNat = 0xC ∨ c.toNat = 0xD ∨
      c.toNat = 0x20 ∨ c.toNat = 0xA0 ∨ c.toNat = 0x1680 ∨ (0x2000 ≤ c.toNat ∧ c.toNat ≤ 0x200A) ∨
      c.toNat = 0x2028 ∨ c.toNat = 0x2029 ∨ c.toNat = 0x202F ∨ c.toNat = 0x205F ∨
      c.toNat = 0x3000 ∨ c.toNat = 0xFEFF) := by
  simp [isJsWhiteSpace, or_assoc]

theorem sampleLowerTable_fixed (d : Char)
    (h1 : ¬ ((0x391 ≤ d.toNat ∧ d.toNat ≤ 0x3A1) ∨ (0x3A3 ≤ d.toNat ∧ d.toNat ≤ 0x3AB) ∨
      (0x410 ≤ d.toNat ∧ d.toNat ≤ 0x42F)))
    (h2 : ¬ (0x400 ≤ d.toNat ∧ d.toNat ≤ 0x40F)) : sampleLowerTable d = [d] := by
  simp only [sampleLowerTable]
  rw [if_neg h1, if_neg h2]

theorem sampleHost_caseStable : sampleHost.CaseStable := by
  refine ⟨by decide, ?_⟩
  intro c hc d hd
  have hmap : ∀ e : Char, 128 ≤ e.toNat → sampleHost.lowerMapping e = sampleLowerTable e := by
    intro e he
    unfold Host.lowerMapping
    rw [if_neg (by omega)]; rfl
  have hsig : capitalSigma.toNat = 0x3A3 := by decide
  change d ∈ sampleLowerTable c at hd
  simp only [sampleLowerTable] at hd
  split at hd
  · rename_i hr
    rw [List.mem_singleton] at hd
    have hn : d.toNat = c.toNat + 32 := by
      rw [hd]; exact toNat_ofNat_small _ (by omega)
    refine ⟨?_, ?_, ?_⟩
    · intro _
      cases hw : isJsWhiteSpace d with
      | false => rfl
      | true => rw [isJsWhiteSpace_eq] at hw; omega
    · rw [hmap d (by omega)]
      exact sampleLowerTable_fixed d (by omega) (by omega)
    · intro e; rw [e] at hn; omega
  · split at hd
    · rename_i hr1 hr
      rw [List.mem_singleton] at hd
      have hn : d.toNat = c.toNat + 80 := by
        rw [hd]; exact toNat_ofNat_small _ (by omega)
      refine ⟨?_, ?_, ?_⟩
      · intro _
        cases hw : isJsWhiteSpace d with
        | false => rfl
        | true => rw [isJsWhiteSpace_eq] at hw; omega
      · rw [hmap d (by omega)]
        exact sampleLowerTable_fixed d (by omega) (by omega)
      · intro e; rw [e] at hn; omega
    · rename_i hr1 hr2
      rw [List.mem_singleton] at hd
      subst hd
      refine ⟨fun w => w, ?_, ?_⟩
      · rw [hmap d hc]
        exact sampleLowerTable_fixed d hr1 hr2
      · intro e; rw [e] at hr1; rw [hsig] at hr1; omega

theorem stopWords_entry (h : Host) (hcase : h.CaseStable) (piece : Str) :
    trim (toLowerCase h (trim piece)) = toLowerCase h (trim piece) ∧
    toLowerCase h (toLowerCase h (trim piece)) = toLowerCase h (trim piece) := by
  refine ⟨?_, toLowerCase_idempotent h hcase _⟩
  exact trim_eq_self _ (lowerFrom_head h hcase [] _ (trim_head piece))
    (lowerFrom_getLast h hcase [] _ (trim_getLast piece))

/-- C11, amended: for every value of the stop-words field, the empty value
standing for the default "thanks, stop, enough, bye", after `updateStopWords` the
list `state.stopWords` is exactly the non-empty results of trimming and
lower-casing each comma-separated piece, in input order, and every entry is
non-empty, has no leading or trailing white space and is equal to its own
lower-casing.  The pieces are those of `split(',')`: joined with commas they give
the field back and none contains a comma. -/
theorem updateStopWords_normalized (h : Host) (field : Str) (s : State)
    (hcase : h.CaseStable) :
    (updateStopWords h field s).stopWords =
      stopPhrasesOf h (if field = [] then DEFAULT_STOP_WORDS else field) ∧
    (∀ w ∈ (updateStopWords h field s).stopWords,
      w ≠ [] ∧ trim w = w ∧ toLowerCase h w = w) ∧
    [','].intercalate (splitComma field) = field ∧
    ∀ piece ∈ splitComma field, ',' ∉ piece := by
  have heq : (updateStopWords h field s).stopWords =
      stopPhrasesOf h (if field = [] then DEFAULT_STOP_WORDS else field) := by
    simp only [updateStopWords, stopPhrasesOf]
    apply List.filter_congr
    intro w _
    cases w <;> simp
  refine ⟨heq, ?_, splitComma_join field, splitComma_no_comma field⟩
  intro w hw
  rw [heq] at hw
  simp only [stopPhrasesOf, List.mem_filter, List.mem_map, decide_eq_true_eq] at hw
  obtain ⟨⟨piece, _, rfl⟩, hne⟩ := hw
  obtain ⟨a, b⟩ := stopWords_entry h hcase piece
  exact ⟨hne, a, b⟩

/-- C11, worked example: the field " Thanks , STOP,, bye ". -/
theorem updateStopWords_normalized_witness :
    sampleHost.CaseStable ∧
    (updateStopWords sampleHost " Thanks , STOP,, bye ".toList listening).stopWords =
      ["thanks".toList, "stop".toList, "bye".toList] ∧
    ∀ w ∈ (updateStopWords sampleHost " Thanks , STOP,, bye ".toList listening).stopWords,
      w ≠ [] ∧ trim w = w ∧ toLowerCase sampleHost w = w :=
  ⟨sampleHost_caseStable, by decide,
    (updateStopWords_normalized sampleHost " Thanks , STOP,, bye ".toList listening
      sampleHost_caseStable).2.1⟩

/-- C11 as stated fails: for the empty field the list is the four default stop
words, not the empty list of the non-empty pieces of the input. -/
theorem updateStopWords_empty_input :
    (updateStopWords sampleHost [] listening).stopWords =
      ["thanks".toList, "stop".toList, "enough".toList, "bye".toList] ∧
    stopPhrasesOf sampleHost [] = [] := by
  decide

/-! ## Arming the debounce timer -/

theorem pendingOf_clearTimeout_transcript {s : State} (hs : s.WF) :
    pendingOf TimerKind.transcript (clearTimeout s.transcriptTimer s) = [] := by
  unfold pendingOf
  rw [List.map_eq_nil_iff, List.filter_eq_nil_iff]
  intro t ht
  rw [clearTimeout_transcript_rest hs t ht]
  decide

theorem pendingOf_finalizeTranscript {s : State} (hs : s.WF) :
    pendingOf TimerKind.transcript (finalizeTranscript s) = [s.nextTimerId] := by
  have h0 := pendingOf_clearTimeout_transcript hs
  have hn : (clearTimeout s.transcriptTimer s).nextTimerId = s.nextTimerId := by
    cases s.transcriptTimer <;> rfl
  unfold pendingOf at *
  simp only [finalizeTranscript, setTimeout, List.filter_append, List.map_append, h0, hn]
  rfl

theorem finalizeTranscript_handle (s : State) :
    (finalizeTranscript s).transcriptTimer = some s.nextTimerId := by
  have hn : (clearTimeout s.transcriptTimer s).nextTimerId = s.nextTimerId := by
    cases s.transcriptTimer <;> rfl
  simp [finalizeTranscript, setTimeout, hn]

theorem nextTimerId_fresh {s : State} (hs : s.WF) : s.nextTimerId ∉ s.timers.map Prod.fst := by
  intro hmem
  obtain ⟨t, ht, hteq⟩ := List.mem_map.1 hmem
  have := hs.2.1 t ht
  omega

/-- C12, amended: for a non-blank fragment, `handleTranscription` leaves a
freshly armed debounce timer as the only one pending when the user-is-speaking
flag is false; when the flag is set it arms and cancels nothing, the timers stay
as they were.  After every `speech_stopped` event a freshly armed debounce timer
is the only one pending. -/
theorem handleTranscription_arms (h : Host) (s : State) (fragment : Str) (hwf : s.WF)
    (hfragment : trim fragment ≠ []) :
    (s.userIsSpeaking = false →
      pendingOf TimerKind.transcript (handleTranscription fragment s) = [s.nextTimerId] ∧
      (handleTranscription fragment s).transcriptTimer = some s.nextTimerId) ∧
    (s.userIsSpeaking = true →
      (handleTranscription fragment s).timers = s.timers ∧
      (handleTranscription fragment s).transcriptTimer = s.transcriptTimer ∧
      (handleTranscription fragment s).nextTimerId = s.nextTimerId) ∧
    pendingOf TimerKind.transcript (handleServerEvent h ServerEvent.speechStopped s) =
      [s.nextTimerId] ∧
    (handleServerEvent h ServerEvent.speechStopped s).transcriptTimer = some s.nextTimerId ∧
    s.nextTimerId ∉ s.timers.map Prod.fst := by
  have hne : ¬ (fragment = [] ∨ trim fragment = []) := by
    rintro (e | e)
    · subst e; exact hfragment rfl
    · exact hfragment e
  refine ⟨?_, ?_, ?_, ?_, nextTimerId_fresh hwf⟩
  · intro hu
    unfold handleTranscription
    rw [if_neg hne]
    simp only [hu, Bool.not_false, if_true]
    exact ⟨pendingOf_finalizeTranscript (WF_frame hwf rfl rfl rfl rfl rfl rfl),
      finalizeTranscript_handle _⟩
  · intro hu
    unfold handleTranscription
    rw [if_neg hne]
    simp only [hu, Bool.not_true, Bool.false_eq_true, if_false]
    exact ⟨trivial, trivial, trivial⟩
  · exact pendingOf_finalizeTranscript (s := { s with userIsSpeaking := false })
      (WF_frame hwf rfl rfl rfl rfl rfl rfl)
  · exact finalizeTranscript_handle _

/-- C12, worked example: the fragment "hello" while the user is not speaking. -/
theorem handleTranscription_arms_witness :
    listening.WF ∧ trim "hello".toList ≠ [] ∧ listening.userIsSpeaking = false ∧
    pendingOf TimerKind.transcript listening = [] ∧
    pendingOf TimerKind.transcript (handleTranscription "hello".toList listening) = [1] ∧
    (handleTranscription "hello".toList listening).transcriptTimer = some 1 :=
  have h := (handleTranscription_arms sampleHost listening "hello".toList (by decide)
    (by decide)).1 (by decide)
  ⟨by decide, by decide, by decide, by decide, h.1, h.2⟩

/-- C12 as stated fails: the user is speaking and the debounce timer 1 is
pending; the fragment "world" schedules no timer and cancels none. -/
theorem handleTranscription_while_speaking :
    Reachable sampleHost speakingAgain ∧
    speakingAgain.userIsSpeaking = true ∧
    trim "world".toList ≠ [] ∧
    speakingAgain.timers = [(1, TimerKind.transcript)] ∧
    speakingAgain.nextTimerId = 2 ∧
    (handleTranscription "world".toList speakingAgain).timers = [(1, TimerKind.transcript)] ∧
    (handleTranscription "world".toList speakingAgain).nextTimerId = 2 :=
  ⟨((Reachable.initial sampleHost [] []).run sessionEvents).run _, by decide⟩

/-! ## Tool calls that outlive the session -/

theorem clearTimeout_inFlight (handle : Option Nat) (s : State) :
    (clearTimeout handle s).inFlight = s.inFlight := by
  cases handle <;> rfl

/-- Sending a tool result touches neither the mode, the buffer nor the timers. -/
theorem sendToolResult_frame (callId : Str) (r : JsObj) (s : State) :
    (sendToolResult callId r s).mode = s.mode ∧
    (sendToolResult callId r s).transcriptBuffer = s.transcriptBuffer ∧
    (sendToolResult callId r s).timers = s.timers ∧
    (sendToolResult callId r s).dialogueTimeout = s.dialogueTimeout ∧
    (sendToolResult callId r s).transcriptTimer = s.transcriptTimer := by
  unfold sendToolResult
  simp only []
  obtain ⟨a, _, _, _, e, f, g, _, i⟩ := sendEvent_fields Command.responseCreate
    { sendEvent (Command.functionCallOutput callId (jsonStringify r)) s with isSpeaking := true }
  obtain ⟨a', _, _, _, e', f', g', _, i'⟩ := sendEvent_fields
    (Command.functionCallOutput callId (jsonStringify r)) s
  exact ⟨a.trans a', i.trans i', e.trans e', f.trans f', g.trans g'⟩

/-- C13, amended: `disconnect` leaves a tool call that waits for its `fetch` in
flight and leaves no data channel.  Whenever that call completes later, it leaves
the mode, the transcript buffer, the scheduled timers and both timer variables
exactly as they are at that moment; as long as no data channel is open then, as
in the state `disconnect` left, it emits no command; and when a data channel is
open again by then, after a reconnect, it sends the tool result and a
`response.create` on that channel. -/
theorem resumeFunctionCall_late (s : State) (index : Nat) (outcome : FetchOutcome) :
    (disconnect s).inFlight = s.inFlight ∧
    (disconnect s).dataChannel = none ∧
    (resumeFunctionCall index outcome (disconnect s)).outbox = (disconnect s).outbox ∧
    (resumeFunctionCall index outcome s).mode = s.mode ∧
    (resumeFunctionCall index outcome s).transcriptBuffer = s.transcriptBuffer ∧
    (resumeFunctionCall index outcome s).timers = s.timers ∧
    (resumeFunctionCall index outcome s).dialogueTimeout = s.dialogueTimeout ∧
    (resumeFunctionCall index outcome s).transcriptTimer = s.transcriptTimer ∧
    (s.dataChannel ≠ some ReadyState.ready →
      (resumeFunctionCall index outcome s).outbox = s.outbox) ∧
    (∀ call, s.dataChannel = some ReadyState.ready → s.inFlight.get? index = some call →
      (resumeFunctionCall index outcome s).outbox = s.outbox ++
        [Command.functionCallOutput call.callId
            (jsonStringify (webSearchResult call.query outcome)),
          Command.responseCreate]) := by
  have hin : (disconnect s).inFlight = s.inFlight := by
    show (clearTimeout (clearTimeout s.dialogueTimeout s).transcriptTimer
      (clearTimeout s.dialogueTimeout s)).inFlight = s.inFlight
    rw [clearTimeout_inFlight, clearTimeout_inFlight]
  have hout : ∀ t : State, t.dataChannel ≠ some ReadyState.ready →
      (resumeFunctionCall index outcome t).outbox = t.outbox := by
    intro t hclosed
    unfold resumeFunctionCall
    split
    · rfl
    · simp [sendToolResult, sendEvent, hclosed]
  have hframe : (resumeFunctionCall index outcome s).mode = s.mode ∧
      (resumeFunctionCall index outcome s).transcriptBuffer = s.transcriptBuffer ∧
      (resumeFunctionCall index outcome s).timers = s.timers ∧
      (resumeFunctionCall index outcome s).dialogueTimeout = s.dialogueTimeout ∧
      (resumeFunctionCall index outcome s).transcriptTimer = s.transcriptTimer := by
    unfold resumeFunctionCall
    split
    · exact ⟨rfl, rfl, rfl, rfl, rfl⟩
    · exact sendToolResult_frame _ _ _
  have hopen : ∀ call, s.dataChannel = some ReadyState.ready →
      s.inFlight.get? index = some call →
      (resumeFunctionCall index outcome s).outbox = s.outbox ++
        [Command.functionCallOutput call.callId
            (jsonStringify (webSearchResult call.query outcome)),
          Command.responseCreate] := by
    intro call hready hget
    unfold resumeFunctionCall
    rw [hget]
    exact sendToolResult_outbox _ _ _ hready
  exact ⟨hin, rfl, hout _ (by simp [disconnect]), hframe.1, hframe.2.1, hframe.2.2.1,
    hframe.2.2.2.1, hframe.2.2.2.2, hout s, hopen⟩

/-- C13 as stated fails, in two ways.  A web search call is in flight when the
session is disconnected: `disconnect` clears the speaking flag and the completion
of the call sets it again.  And when the user has reconnected before the call
completes, the completion sends the tool result and a `response.create` on the
new channel. -/
theorem resumeFunctionCall_not_ignored :
    Reachable sampleHost searching ∧
    searching.inFlight = [⟨"call_3".toList, JsVal.str "weather".toList⟩] ∧
    (disconnect searching).inFlight = searching.inFlight ∧
    (disconnect searching).isSpeaking = false ∧
    (resumeFunctionCall 0 (FetchOutcome.failed "Failed to fetch".toList)
      (disconnect searching)).isSpeaking = true ∧
    Reachable sampleHost reconnected ∧
    reconnected.inFlight = searching.inFlight ∧
    (resumeFunctionCall 0 (FetchOutcome.failed "Failed to fetch".toList) reconnected).outbox =
      reconnected.outbox ++
        [Command.functionCallOutput "call_3".toList
            "\x7b\"error\":\"Failed to fetch\"\x7d".toList,
          Command.responseCreate] :=
  ⟨(Reachable.initial sampleHost [] []).run _, by decide, by decide, by decide, by decide,
    ((Reachable.initial sampleHost [] []).run _).run _, by decide, by decide⟩

/-! ## One timer of each kind -/

theorem pendingOf_length_le_one {s : State} (hs : s.WF) (kind : TimerKind) :
    (pendingOf kind s).length ≤ 1 := by
  have hnd : (pendingOf kind s).Nodup :=
    ((List.filter_sublist _).map Prod.fst).nodup hs.1
  have heq : ∀ a ∈ pendingOf kind s, ∀ b ∈ pendingOf kind s, a = b := by
    intro a ha b hb
    unfold pendingOf at ha hb
    obtain ⟨t, ht, rfl⟩ := List.mem_map.1 ha
    obtain ⟨u, hu, rfl⟩ := List.mem_map.1 hb
    obtain ⟨ht1, ht2⟩ := List.mem_filter.1 ht
    obtain ⟨hu1, hu2⟩ := List.mem_filter.1 hu
    simp only [beq_iff_eq] at ht2 hu2
    cases kind with
    | dialogue =>
      have e1 := hs.2.2.1 t ht1 ht2
      have e2 := hs.2.2.1 u hu1 hu2
      rw [e1] at e2
      exact Option.some.inj e2
    | transcript =>
      have e1 := hs.2.2.2.1 t ht1 ht2
      have e2 := hs.2.2.2.1 u hu1 hu2
      rw [e1] at e2
      exact Option.some.inj e2
  generalize pendingOf kind s = l at hnd heq
  match l, hnd, heq with
  | [], _, _ => simp
  | [_], _, _ => simp
  | a :: b :: rest, hnd, heq =>
    exfalso
    have hab : a = b := heq a (by simp) b (by simp)
    subst hab
    simp at hnd

/-- C14: in every reachable state at most one dialogue timeout and at most one
debounce timer are pending, and the operations that arm a timer,
`resetDialogueTimeout` and `finalizeTranscript`, leave exactly one timer of their
kind pending, the new one: re-arming replaces and never stacks. -/
theorem timers_never_stack (h : Host) (s : State) (hr : Reachable h s) :
    (pendingOf TimerKind.dialogue s).length ≤ 1 ∧
    (pendingOf TimerKind.transcript s).length ≤ 1 ∧
    pendingOf TimerKind.dialogue (resetDialogueTimeout s) = [s.nextTimerId] ∧
    pendingOf TimerKind.transcript (finalizeTranscript s) = [s.nextTimerId] ∧
    s.nextTimerId ∉ s.timers.map Prod.fst :=
  ⟨pendingOf_length_le_one hr.wf _, pendingOf_length_le_one hr.wf _,
    pendingOf_resetDialogueTimeout hr.wf, pendingOf_finalizeTranscript hr.wf,
    nextTimerId_fresh hr.wf⟩

/-- C14, worked example: the session in dialogue. -/
theorem timers_never_stack_witness :
    Reachable sampleHost inDialogue ∧
    pendingOf TimerKind.dialogue inDialogue = [2] ∧
    pendingOf TimerKind.transcript inDialogue = [] ∧
    pendingOf TimerKind.dialogue (resetDialogueTimeout inDialogue) = [3] ∧
    pendingOf TimerKind.transcript (finalizeTranscript inDialogue) = [3] :=
  have hr : Reachable sampleHost inDialogue :=
    ((Reachable.initial sampleHost [] []).run sessionEvents).run _
  have h := timers_never_stack sampleHost inDialogue hr
  ⟨hr, by decide, by decide, h.2.2.1, h.2.2.2.1⟩

/-! ## Dialogue timers and the mode -/

theorem DialogueOnly_of_dialogue {s : State} (hm : s.mode = AgentMode.dialogue) :
    s.DialogueOnly := fun _ _ _ => hm

theorem DialogueOnly_of_rest {s : State} (hr : ∀ t ∈ s.timers, t.2 = TimerKind.transcript) :
    s.DialogueOnly := by
  intro t ht hk
  rw [hr t ht] at hk; cases hk

theorem DialogueOnly_frame {s s' : State} (hs : s.DialogueOnly) (hm : s'.mode = s.mode)
    (ht : ∀ t ∈ s'.timers, t.2 = TimerKind.dialogue → t ∈ s.timers) : s'.DialogueOnly := by
  intro t h1 h2
  rw [hm]; exact hs t (ht t h1 h2) h2

theorem DialogueOnly_clearTimeout {s : State} (handle : Option Nat) (hs : s.DialogueOnly) :
    (clearTimeout handle s).DialogueOnly := by
  cases handle with
  | none => exact hs
  | some id => exact DialogueOnly_frame hs rfl (fun t ht _ => List.mem_of_mem_filter ht)

theorem DialogueOnly_sendEvent {s : State} (c : Command) (hs : s.DialogueOnly) :
    (sendEvent c s).DialogueOnly := by
  obtain ⟨a, _, _, _, e, _⟩ := sendEvent_fields c s
  exact DialogueOnly_frame hs a (fun t ht _ => e ▸ ht)

theorem DialogueOnly_finalizeTranscript {s : State} (hs : s.DialogueOnly) :
    (finalizeTranscript s).DialogueOnly := by
  have hc := DialogueOnly_clearTimeout s.transcriptTimer hs
  have hm : (clearTimeout s.transcriptTimer s).mode = s.mode := (clearTimeout_fields _ _).1
  intro t ht hk
  simp only [finalizeTranscript, setTimeout, List.mem_append, List.mem_singleton] at ht ⊢
  rcases ht with ht | ht
  · exact hc t ht hk
  · subst ht; cases hk

theorem DialogueOnly_exitDialogueMode {s : State} (hs : s.WF) :
    (exitDialogueMode s).DialogueOnly :=
  DialogueOnly_of_rest (clearTimeout_dialogue_rest (s := { s with mode := AgentMode.idle })
    (WF_frame hs rfl rfl rfl rfl rfl rfl))

theorem DialogueOnly_enterIdleMode {s : State} (hs : s.WF) :
    (enterIdleMode s).DialogueOnly :=
  DialogueOnly_of_rest (clearTimeout_dialogue_rest (s := { s with mode := AgentMode.idle })
    (WF_frame hs rfl rfl rfl rfl rfl rfl))

theorem DialogueOnly_processTranscript (h : Host) (U : Str) {s : State} (hw : s.WF)
    (hs : s.DialogueOnly) : (processTranscript h U s).DialogueOnly := by
  have hw1 : ({ s with processed := s.processed ++ [U] } : State).WF :=
    WF_frame hw rfl rfl rfl rfl rfl rfl
  by_cases hne : U = []
  · subst hne; simpa [processTranscript] using hs
  · cases hm : s.mode with
    | idle =>
      cases hn : checkForName h s U with
      | true =>
        rw [processTranscript_eq_wake h s U hne hm hn]
        apply DialogueOnly_of_dialogue
        rw [(respond_fields _).1]
        exact (resetDialogueTimeout_fields _).1
      | false =>
        rw [processTranscript_eq_ignored h s U hne hm hn]
        exact DialogueOnly_frame hs rfl (fun t ht _ => ht)
    | dialogue =>
      cases hn : checkForStopPhrase h s U with
      | true =>
        rw [processTranscript_eq_stop h s U hne hm hn]
        exact DialogueOnly_exitDialogueMode hw1
      | false =>
        rw [processTranscript_eq_reply h s U hne hm hn]
        apply DialogueOnly_of_dialogue
        rw [(resetDialogueTimeout_fields _).1, (respond_fields _).1]
        exact hm

theorem DialogueOnly_transcriptTimerFired (h : Host) {s : State} (hw : s.WF)
    (hs : s.DialogueOnly) : (transcriptTimerFired h s).DialogueOnly := by
  unfold transcriptTimerFired
  split
  · exact DialogueOnly_frame (DialogueOnly_processTranscript h _ hw hs) rfl (fun t ht _ => ht)
  · exact hs

theorem DialogueOnly_handleTranscription (f : Str) {s : State} (hs : s.DialogueOnly) :
    (handleTranscription f s).DialogueOnly := by
  unfold handleTranscription
  split
  · exact hs
  · simp only []
    split
    · exact DialogueOnly_finalizeTranscript (DialogueOnly_frame hs rfl (fun t ht _ => ht))
    · exact DialogueOnly_frame hs rfl (fun t ht _ => ht)

theorem DialogueOnly_handleResponseDone {s : State} (hs : s.DialogueOnly) :
    (handleResponseDone s).DialogueOnly := by
  unfold handleResponseDone
  simp only []
  split
  · rename_i hm
    apply DialogueOnly_of_dialogue
    rw [(resetDialogueTimeout_fields _).1]; exact hm
  · exact DialogueOnly_frame hs rfl (fun t ht _ => ht)

theorem timers_disconnect {s : State} (hwf : s.WF) : (disconnect s).timers = [] := by
  show (clearTimeout (clearTimeout s.dialogueTimeout s).transcriptTimer
    (clearTimeout s.dialogueTimeout s)).timers = []
  have hk := clearTimeout_dialogue_rest hwf
  have hw1 := WF_clearTimeout s.dialogueTimeout hwf
  cases hT : (clearTimeout s.dialogueTimeout s).transcriptTimer with
  | none =>
    simp only [clearTimeout]
    rw [List.eq_nil_iff_forall_not_mem]
    intro t ht
    have := hw1.2.2.2.1 t ht (hk t ht)
    rw [hT] at this; cases this
  | some j =>
    simp only [clearTimeout]
    rw [List.filter_eq_nil_iff]
    intro t ht
    have := hw1.2.2.2.1 t ht (hk t ht)
    rw [hT] at this
    simp only [Option.some.injEq] at this
    simp [this]

theorem DialogueOnly_disconnect {s : State} (hw : s.WF) : (disconnect s).DialogueOnly := by
  intro t ht
  rw [timers_disconnect hw] at ht; cases ht

theorem sendToolResult_fields (callId : Str) (r : JsObj) (s : State) :
    (sendToolResult callId r s).mode = s.mode ∧ (sendToolResult callId r s).timers = s.timers := by
  unfold sendToolResult
  simp only []
  obtain ⟨a, _, _, _, e, _⟩ := sendEvent_fields Command.responseCreate
    { sendEvent (Command.functionCallOutput callId (jsonStringify r)) s with isSpeaking := true }
  obtain ⟨a', _, _, _, e', _⟩ := sendEvent_fields
    (Command.functionCallOutput callId (jsonStringify r)) s
  exact ⟨a.trans a', e.trans e'⟩

theorem DialogueOnly_sendToolResult (callId : Str) (r : JsObj) {s : State}
    (hs : s.DialogueOnly) : (sendToolResult callId r s).DialogueOnly := by
  obtain ⟨a, e⟩ := sendToolResult_fields callId r s
  exact DialogueOnly_frame hs a (fun t ht _ => e ▸ ht)

theorem DialogueOnly_fireTimer (h : Host) (id : Nat) {s s' : State} (hw : s.WF)
    (hs : s.DialogueOnly) (hf : fireTimer h id s = some s') : s'.DialogueOnly := by
  have hw1 : ({ s with timers := s.timers.filter (fun t => t.1 != id) } : State).WF :=
    WF_clearTimeout (some id) hw
  have hs1 : ({ s with timers := s.timers.filter (fun t => t.1 != id) } : State).DialogueOnly :=
    DialogueOnly_clearTimeout (some id) hs
  unfold fireTimer at hf
  split at hf
  · cases hf
  · simp only [] at hf
    split at hf
    · cases hf; exact DialogueOnly_exitDialogueMode hw1
    · cases hf; exact DialogueOnly_transcriptTimerFired h hw1 hs1

theorem DialogueOnly_step (h : Host) (e : Event) {s : State} (hw : s.WF)
    (hs : s.DialogueOnly) : (step h e s).DialogueOnly := by
  have keep : ∀ s' : State, s'.mode = s.mode → s'.timers = s.timers → s'.DialogueOnly :=
    fun s' a b => DialogueOnly_frame hs a (fun t ht _ => b ▸ ht)
  cases e <;> simp only [step]
  case agentNameInput => exact keep _ rfl rfl
  case stopWordsInput => exact keep _ rfl rfl
  case tavilyKeyInput => exact keep _ rfl rfl
  case toolsChanged => exact keep _ rfl rfl
  case connectClicked => exact keep _ rfl rfl
  case channelCreated => exact keep _ rfl rfl
  case connectSucceeded => exact keep _ rfl rfl
  case connectFailed => exact DialogueOnly_disconnect hw
  case channelOpened =>
    split
    · exact DialogueOnly_enterIdleMode (WF_sendEvent _ (WF_frame hw rfl rfl rfl rfl rfl rfl))
    · exact hs
  case channelClosing =>
    split
    · exact keep _ rfl rfl
    · exact hs
  case channelClosed =>
    split
    · split
      · exact DialogueOnly_disconnect (WF_frame hw rfl rfl rfl rfl rfl rfl)
      · exact keep _ rfl rfl
    · exact hs
  case message ev =>
    cases ev <;> simp only [handleServerEvent]
    all_goals first
      | exact hs
      | exact keep _ rfl rfl
      | exact DialogueOnly_finalizeTranscript (keep _ rfl rfl)
      | exact DialogueOnly_handleTranscription _ hs
      | exact DialogueOnly_handleResponseDone hs
      | skip
    unfold handleFunctionCall
    split
    · exact DialogueOnly_sendToolResult _ _ hs
    · exact keep _ rfl rfl
  case timerFired id =>
    cases hf : fireTimer h id s with
    | none => exact hs
    | some s' => exact DialogueOnly_fireTimer h id hw hs hf
  case fetchSettled i o =>
    unfold resumeFunctionCall
    split
    · exact hs
    · exact DialogueOnly_sendToolResult _ _ (keep _ rfl rfl)
  case disconnectClicked =>
    split
    · exact DialogueOnly_disconnect hw
    · exact hs

theorem Reachable.dialogueOnly {h : Host} {s : State} (hr : Reachable h s) :
    s.DialogueOnly := by
  obtain ⟨n, w, events, rfl⟩ := hr
  have key : ∀ (es : List Event) (st : State), st.WF → st.DialogueOnly →
      (VoiceAgent.run h es st).DialogueOnly := by
    intro es
    induction es with
    | nil => intro st _ hd; exact hd
    | cons e rest ih =>
      intro st hw hd
      exact ih (step h e st) (WF_step h e hw) (DialogueOnly_step h e hw hd)
  refine key events _ (WF_initialState h n w) ?_
  intro t ht
  have : (initialState h n w).timers = [] := rfl
  rw [this] at ht; cases ht

/-- C15: in every reachable state a dialogue timeout is pending only if the mode
is Dialogue; hence in mode Idle no dialogue timeout is pending and the only timer
that can fire is a debounce timer. -/
theorem dialogue_timeout_only_in_dialogue (h : Host) (s : State) (hr : Reachable h s) :
    (∀ t ∈ s.timers, t.2 = TimerKind.dialogue → s.mode = AgentMode.dialogue) ∧
    (s.mode = AgentMode.idle → pendingOf TimerKind.dialogue s = []) ∧
    (s.mode = AgentMode.idle → ∀ id s', fireTimer h id s = some s' →
      (id, TimerKind.transcript) ∈ s.timers) := by
  have hd := hr.dialogueOnly
  refine ⟨hd, ?_, ?_⟩
  · intro hm
    unfold pendingOf
    rw [List.map_eq_nil_iff, List.filter_eq_nil_iff]
    intro t ht hk
    simp only [beq_iff_eq] at hk
    have := hd t ht hk
    rw [hm] at this; cases this
  · intro hm id s' hf
    unfold fireTimer at hf
    split at hf
    · cases hf
    · rename_i i kind hfind
      have hmem := List.mem_of_find?_eq_some hfind
      have hid := List.find?_some hfind
      simp only [beq_iff_eq] at hid
      cases kind with
      | dialogue =>
        have := hd _ hmem rfl
        rw [hm] at this; cases this
      | transcript => rw [← hid]; exact hmem

/-- C15, worked example: the session after the dialogue was ended by a stop
phrase. -/
theorem dialogue_timeout_only_in_dialogue_witness :
    Reachable sampleHost afterStop ∧
    afterStop.mode = AgentMode.idle ∧
    pendingOf TimerKind.dialogue afterStop = [] :=
  have hr : Reachable sampleHost afterStop :=
    (((Reachable.initial sampleHost [] []).run sessionEvents).run _).run _
  ⟨hr, by decide, (dialogue_timeout_only_in_dialogue sampleHost afterStop hr).2.1 (by decide)⟩

end VoiceAgent
